import Mathlib

/-!
Shallow embedding of `impulcifer.py` (repository andrewpong/Impulcifer).

Conventions used throughout this development:

* Sample values are idealized as real numbers (`ℝ`); the Python code works on
  numpy arrays / pydub `AudioSegment`s holding machine integers or floats.
  Integer re-quantization performed by the audio library after gain changes is
  elided (documented at each definition where it would occur).
* A pydub `AudioSegment` is modelled by `Seg` (mono) or `Multi` (multichannel,
  held as a list of mono tracks; pydub stores interleaved frames, which slices
  and splits exactly like a per-track representation).
* pydub addresses audio by milliseconds.  `len(seg)` is
  `round(1000 * frames / frame_rate)` with Python banker's rounding
  (`pyRound`), `int(x)` truncates toward zero (`pyTrunc`), and slicing
  `seg[a:b]` converts the millisecond positions to frame counts through
  `_parse_position` (`segParse`) and then slices the frame list with Python
  slice semantics (`pySliceL`).
-/

namespace Impulcifer

/-- Python `int()` applied to an exact rational: truncation toward zero. -/
def pyTrunc (q : ℚ) : ℤ :=
  if q < 0 then -(⌊-q⌋) else ⌊q⌋

/-- Python 3 `round()` applied to an exact rational: round half to even. -/
def pyRound (q : ℚ) : ℤ :=
  let f := ⌊q⌋
  let r := q - f
  if r < 1/2 then f
  else if 1/2 < r then f + 1
  else if f % 2 = 0 then f else f + 1

/-- Resolution of one (possibly negative) Python slice endpoint against a
sequence of length `n`: negative indices count from the end and the result is
clamped into `[0, n]`. -/
def pyIndex (n : ℕ) (i : ℤ) : ℕ :=
  if i < 0 then n - (-i).toNat else min i.toNat n

/-- Python slice `l[a:b]` (step 1) with integer endpoints. -/
def pySliceL {α : Type} (l : List α) (a b : ℤ) : List α :=
  (l.take (pyIndex l.length b)).drop (pyIndex l.length a)

/-- A mono pydub `AudioSegment`: a buffer of samples, a frame rate in Hz and a
sample width in bytes (2 for 16-bit audio, 4 for the 32-bit deconvolution
output). -/
structure Seg where
  samples : List ℝ
  fs : ℕ
  width : ℕ
deriving Inhabited

/-- A multichannel pydub `AudioSegment`, as its list of mono tracks. -/
structure Multi where
  tracks : List (List ℝ)
  fs : ℕ
  width : ℕ
deriving Inhabited

/-- pydub `len(seg)`: duration in milliseconds, `round(1000*frames/rate)`. -/
def pylen (s : Seg) : ℤ :=
  pyRound (1000 * s.samples.length / (s.fs : ℚ))

/-- pydub `AudioSegment._parse_position` composed with the `min(val, len(self))`
clamp done by `__getitem__`: a millisecond position is clamped above by the
segment length, negative positions count from the end, and the result is
converted to a frame count by `int(val * frame_rate / 1000)`. -/
def segParse (s : Seg) (ms : ℚ) : ℤ :=
  let v := min ms ((pylen s : ℤ) : ℚ)
  let w := if v < 0 then ((pylen s : ℤ) : ℚ) - |v| else v
  pyTrunc (w * s.fs / 1000)

/-- pydub `seg[startMs:]` (stop defaults to `len(self)`). -/
def pySliceFromMs (s : Seg) (startMs : ℚ) : Seg :=
  { s with samples := pySliceL s.samples (segParse s startMs) (segParse s ((pylen s : ℤ) : ℚ)) }

/-- pydub `seg[:endMs]` (start defaults to `0`, which parses to frame 0). -/
def pySliceToMs (s : Seg) (endMs : ℚ) : Seg :=
  { s with samples := pySliceL s.samples 0 (segParse s endMs) }

/-- `to_float` of the source: normalizes integer sample values into `-1..1`
according to the integer width they were stored with (`int32`, `int16`,
`uint8`; any other dtype is returned unchanged). -/
noncomputable def to_float (width : ℕ) (v : ℝ) : ℝ :=
  if width = 4 then v / 2 ^ 31
  else if width = 2 then v / 2 ^ 15
  else if width = 1 then v / 2 ^ 8 * 2 - 1
  else v

/-- pydub `seg.max`: largest absolute sample value (audioop `max`). -/
noncomputable def maxAbsSample (l : List ℝ) : ℝ :=
  l.foldr (fun v m => max |v| m) 0

/-- pydub `seg.max_possible_amplitude` = `2 ** (8 * sample_width) / 2`. -/
noncomputable def maxAmplitude (width : ℕ) : ℝ :=
  2 ^ (8 * width) / 2

/-- The `-0.1 dB` headroom factor used by `pydub.effects.normalize` with its
default `headroom=0.1`: `db_to_float(-0.1) = 10 ** (-0.1 / 20)`. -/
noncomputable def headroomFactor : ℝ :=
  (10 : ℝ) ^ ((-1 : ℝ) / 200)

/-- pydub `seg.normalize()`: scale the peak to `max_possible_amplitude`
lowered by the 0.1 dB headroom; a completely silent segment is returned
unchanged.  The dB round-trip `db_to_float(ratio_to_db(r)) = r` is exact in
ideal arithmetic, and audioop's re-quantization to integers is elided. -/
noncomputable def pydubNormalize (s : Seg) : Seg :=
  let peak := maxAbsSample s.samples
  if peak = 0 then s
  else { s with samples := s.samples.map (fun v => v * (maxAmplitude s.width * headroomFactor / peak)) }

/-- pydub `seg.rms` (audioop `rms`): integer square root of the mean square of
the raw integer samples; an empty segment has rms 0. -/
noncomputable def pydubRMS (s : Seg) : ℤ :=
  if s.samples.isEmpty then 0
  else ⌊Real.sqrt ((s.samples.map (fun v => v ^ 2)).sum / s.samples.length)⌋

/-- pydub `seg.fade_in(durMs)` = `fade(from_gain=-120, start=0, duration=durMs)`.
For the sub-100 ms durations used by this program, pydub scales
`int(duration * frame_rate / 1000)` individual frames, with the gain for frame
`i` equal to `db_to_float(-120) + (1 - db_to_float(-120)) / fade_frames * i`
where `fade_frames` is the exact (fractional) frame count, then appends
`self[durMs:]` (the frames from `int(duration * frame_rate / 1000)` on).  The
`duration > 100` coarse branch of pydub `fade` is unreachable here: the single
call site passes `2 / frame_rate / 1000` milliseconds.  audioop integer
rounding of the scaled frames is elided. -/
noncomputable def pydubFadeIn (s : Seg) (durMs : ℚ) : Seg :=
  let ff : ℚ := durMs * s.fs / 1000
  let m := (pyTrunc ff).toNat
  { s with samples :=
      (List.range m).map (fun i => s.samples.getD i 0 * ((1 / 1000000 : ℝ) + (1 - 1 / 1000000) / ((ff : ℚ) : ℝ) * i))
      ++ s.samples.drop m }

/-- The seven nominal loudspeaker positions (`CHANNELS` of the source). -/
inductive Speaker where
  | FL | FR | FC | BL | BR | SL | SR
deriving DecidableEq, Inhabited

/-- An ear track of a position. -/
inductive Ear where
  | left | right
deriving DecidableEq, Inhabited

/-- `CHANNELS = ['FL', 'FR', 'FC', 'BL', 'BR', 'SL', 'SR']`. -/
def CHANNELS : List Speaker :=
  [.FL, .FR, .FC, .BL, .BR, .SL, .SR]

/-- `IR_ORDER`: each channel, left ear then right ear. -/
def IR_ORDER : List (Speaker × Ear) :=
  CHANNELS.flatMap (fun c => [(c, .left), (c, .right)])

/-- `DELAYS`: per-channel expected delay constants in milliseconds. -/
def DELAYS : Speaker → ℚ
  | .FL => 1487 / 10000
  | .FR => 1487 / 10000
  | .FC => 2557 / 10000
  | .BL => 1487 / 10000
  | .BR => 1487 / 10000
  | .SL => 417 / 10000
  | .SR => 417 / 10000

/-- `speaker[1]`: the second character of the channel name. -/
def sideChar : Speaker → Char
  | .FL => 'L'
  | .FR => 'R'
  | .FC => 'C'
  | .BL => 'L'
  | .BR => 'R'
  | .SL => 'L'
  | .SR => 'R'

/-- Python exception outcomes surfaced by the pipeline. -/
inductive PyErr where
  | notImplErr
  | typeErr (param : String)
  | valueErr
  | valueErrCh (channel : Speaker)
  | indexErr
  | nameErr
deriving DecidableEq

/-- `np.mean` of a list of reals (`np.mean` of an empty array is NaN in numpy;
here `0/0 = 0`, and every theorem below stays away from that case). -/
noncomputable def listMean (l : List ℝ) : ℝ :=
  l.sum / l.length

/-- One sliding window RMS value of `crop_ir_tail`: window `i` (0-based, the
loop variable `j` of the source is `i + 1`) covers samples
`data[i*n : (i+1)*n]` with `n = frame_rate // 1000`, normalized by `to_float`,
then `sqrt(mean(square(window)))`. -/
noncomputable def tailRMS (s : Seg) (i : ℕ) : ℝ :=
  let n := s.fs / 1000
  let w := ((s.samples.drop (i * n)).take n).map (to_float s.width)
  Real.sqrt (((w.map (fun v => v ^ 2)).sum) / w.length)

/-- The full RMS list of `crop_ir_tail`: one entry per `j in range(1, len(response))`. -/
noncomputable def tailRMSList (s : Seg) : List ℝ :=
  (List.range ((pylen s).toNat - 1)).map (tailRMS s)

/-- The noise floor of `crop_ir_tail`:
`np.max([np.mean(rms[-10:-1]) * 10, 10.0 ** (-60.0 / 10.0)])`. -/
noncomputable def tailNoiseFloor (s : Seg) : ℝ :=
  max (listMean (pySliceL (tailRMSList s) (-10) (-1)) * 10) (1 / 1000000)

/-- The backward scan of `crop_ir_tail`: `for j in range(len(rms)-1, 1, -1)`,
breaking at the first window whose RMS exceeds the noise floor and otherwise
recording `end = j`.  The first argument list is the sequence of `j` values
visited, the accumulator is `end` (initially `-1`). -/
noncomputable def tailScan (rms : List ℝ) (nf : ℝ) : List ℕ → ℤ → ℤ
  | [], e => e
  | j :: js, _e => if rms.getD j 0 > nf then _e else tailScan rms nf js j

/-- `crop_ir_tail` of the source: sliding-window RMS, noise floor estimate,
backward scan for the last window above the floor, and the millisecond slice
`response[:end]`. -/
noncomputable def crop_ir_tail (response : Seg) : Seg :=
  let rms := tailRMSList response
  let nf := tailNoiseFloor response
  let e := tailScan rms nf ((List.range' 2 (rms.length - 2)).reverse) (-1)
  pySliceToMs response (e : ℚ)

/-- Inner `while` of scipy `_local_maxima_1d`: starting at `i0 = i + 1`,
advance while `i_ahead < i_max` and `x[i_ahead] == x[i]` (plateau of the
candidate peak value `v`).  Structured with explicit fuel (the list length
bounds the iteration count). -/
noncomputable def plateauEnd (x : List ℝ) (imax : ℕ) (v : ℝ) : ℕ → ℕ → ℕ
  | 0, i => i
  | fuel + 1, i =>
    if i < imax ∧ x.getD i 0 = v then plateauEnd x imax v fuel (i + 1) else i

/-- Outer loop of scipy `_local_maxima_1d` (the peak detector behind
`scipy.signal.find_peaks`): scan `i` from 1 to `i_max - 1`; at a strict rise
find the end of the plateau; if the signal then falls, record the plateau
midpoint `(left_edge + right_edge) // 2` and resume after the plateau. -/
noncomputable def lmScan (x : List ℝ) (imax : ℕ) : ℕ → ℕ → List ℕ
  | 0, _ => []
  | fuel + 1, i =>
    if i < imax then
      if x.getD (i - 1) 0 < x.getD i 0 then
        let ia := plateauEnd x imax (x.getD i 0) x.length (i + 1)
        if x.getD ia 0 < x.getD i 0 then
          (i + (ia - 1)) / 2 :: lmScan x imax fuel (ia + 1)
        else lmScan x imax fuel (i + 1)
      else lmScan x imax fuel (i + 1)
    else []

/-- scipy `_local_maxima_1d`: all local maxima (plateau midpoints) of a signal. -/
noncomputable def localMaxima (x : List ℝ) : List ℕ :=
  lmScan x (x.length - 1) x.length 1

/-- The peak list computed by `crop_ir_head` for one ear:
`signal.find_peaks(to_float(np.array(seg.normalize().get_array_of_samples())), height=0.1)`,
i.e. local maxima whose (normalized, floated) height is at least 0.1. -/
noncomputable def onsetPeaks (s : Seg) : List ℕ :=
  let xs := (pydubNormalize s).samples.map (to_float s.width)
  (localMaxima xs).filter (fun i => (1 / 10 : ℝ) ≤ xs.getD i 0)

/-- The common tail of `crop_ir_head` after the per-side slicing: the
(degenerate, zero-frame) fade-in `seg.fade_in(2 / frame_rate / 1000)` and the
crop to an integer number of samples
`seg[:(int(len(seg) / 1000 * frame_rate) - 1) / frame_rate * 1000]`. -/
noncomputable def headFinish (l r : Seg) : Except PyErr (Seg × Seg) :=
  let l1 := pydubFadeIn l (2 / l.fs / 1000)
  let r1 := pydubFadeIn r (2 / r.fs / 1000)
  let l2 := pySliceToMs l1 (((pyTrunc ((pylen l1 : ℤ) / 1000 * l1.fs : ℚ) - 1 : ℤ) : ℚ) / l1.fs * 1000)
  let r2 := pySliceToMs r1 (((pyTrunc ((pylen r1 : ℤ) / 1000 * r1.fs : ℚ) - 1 : ℤ) : ℚ) / r1.fs * 1000)
  .ok (l2, r2)

/-- `crop_ir_head` of the source: find the first qualifying peak of each ear
(`peaks[0]` raises IndexError when none exists), convert to milliseconds,
take the inter-aural time difference, check the onset order against the
nominal side of the speaker (raising `ValueError(speaker, ...)`), slice each
ear so the near ear's onset lands at the configured delay and the far ear's at
delay + ITD, then fade in and crop to an integer number of samples. -/
noncomputable def crop_ir_head (left right : Seg) (speaker : Speaker) :
    Except PyErr (Seg × Seg) :=
  match (onsetPeaks left).head? with
  | none => .error .indexErr
  | some pl =>
    match (onsetPeaks right).head? with
    | none => .error .indexErr
    | some pr =>
      let plms : ℚ := (pl : ℚ) / left.fs * 1000
      let prms : ℚ := (pr : ℚ) / right.fs * 1000
      let itd := |plms - prms|
      let delay := DELAYS speaker
      if plms < prms then
        if sideChar speaker = 'R' then .error (.valueErrCh speaker)
        else headFinish (pySliceFromMs left (plms - delay))
          (pySliceFromMs right (prms - (delay + itd)))
      else
        if sideChar speaker = 'L' then .error (.valueErrCh speaker)
        else headFinish (pySliceFromMs left (plms - (delay + itd)))
          (pySliceFromMs right (prms - delay))

/-- `zero_pad` of the source: append `max_samples - len(seg_samples)` zero
samples (in the buffer's own dtype) and rebuild the segment at frame rate
`fs`.  The call sites always satisfy `len(seg_samples) ≤ max_samples`
(`np.zeros` of a negative count would raise; natural subtraction never
produces that case here). -/
def zero_pad (seg : Seg) (max_samples : ℕ) (fs : ℕ) : Seg :=
  { samples := seg.samples ++ List.replicate (max_samples - seg.samples.length) 0,
    fs := fs, width := seg.width }

/-- Frame count of a multichannel segment (all tracks of one recording share
one length; pydub stores frames of interleaved per-track samples). -/
def multiFrames (m : Multi) : ℕ :=
  (m.tracks.headD []).length

/-- pydub `len(seg)` for a multichannel segment. -/
def mpylen (m : Multi) : ℤ :=
  pyRound (1000 * multiFrames m / (m.fs : ℚ))

/-- `_parse_position` with the `min(val, len(self))` clamp, multichannel. -/
def mparse (m : Multi) (ms : ℚ) : ℤ :=
  let v := min ms ((mpylen m : ℤ) : ℚ)
  let w := if v < 0 then ((mpylen m : ℤ) : ℚ) - |v| else v
  pyTrunc (w * m.fs / 1000)

/-- pydub `seg[startMs:]`, multichannel. -/
def multiFromMs (m : Multi) (startMs : ℚ) : Multi :=
  { m with tracks :=
      m.tracks.map (fun t => pySliceL t (mparse m startMs) (mparse m ((mpylen m : ℤ) : ℚ))) }

/-- pydub `seg[:endMs]`, multichannel. -/
def multiToMs (m : Multi) (endMs : ℚ) : Multi :=
  { m with tracks := m.tracks.map (fun t => pySliceL t 0 (mparse m endMs)) }

/-- The column-splitting loop of `split_recording`: `n` times, take
`remainder[:ms]` as a column and continue with `remainder[ms:]`. -/
def buildColumns (ms : ℚ) : Multi → ℕ → List Multi
  | _, 0 => []
  | rem, n + 1 => multiToMs rem ms :: buildColumns ms (multiFromMs rem ms) n

/-- The track-collection loop of `split_recording`: `i = 0, 2, 4, ...` while
`i < channels`; for each column append the column's track `i` (left ear) and
track `i+1` (right ear).  An odd channel count would IndexError in Python; the
`getD` default is never reached for the even counts the caller promises. -/
def collectTracks (cols : List Multi) (channels : ℕ) : List (List ℝ) :=
  (List.range ((channels + 1) / 2)).flatMap (fun p =>
    cols.flatMap (fun col => [col.tracks.getD (2 * p) [], col.tracks.getD (2 * p + 1) []]))

/-- `split_recording` of the source: skip the initial silence, split the time
axis into `len(speakers) // (channels // 2)` columns of
`silence_length*1000 + len(test_signal)` milliseconds each, then regroup per
(speaker, ear) pair. -/
def split_recording (recording : Multi) (test_signal : Seg) (speakers : List Speaker)
    (silence_length : ℚ) : Multi :=
  let n_speakers := speakers.length / (recording.tracks.length / 2)
  let ms : ℚ := silence_length * 1000 + ((pylen test_signal : ℤ) : ℚ)
  let remainder := multiFromMs recording (silence_length * 1000)
  let columns := buildColumns ms remainder n_speakers
  { tracks := collectTracks columns recording.tracks.length,
    fs := recording.fs, width := recording.width }

/-- Discrete Fourier transform (`np.fft.fft`), idealized over `ℂ`. -/
noncomputable def dft (v : List ℂ) : List ℂ :=
  (List.range v.length).map (fun k =>
    ∑ j ∈ Finset.range v.length,
      v.getD j 0 * Complex.exp (-2 * Real.pi * Complex.I * k * j / v.length))

/-- Inverse discrete Fourier transform (`np.fft.ifft`). -/
noncomputable def idft (v : List ℂ) : List ℂ :=
  (List.range v.length).map (fun k =>
    (∑ j ∈ Finset.range v.length,
      v.getD j 0 * Complex.exp (2 * Real.pi * Complex.I * k * j / v.length)) / v.length)

/-- Frequency-domain branch of `deconv`: `h = real(ifft(fft(y) / fft(x)))`. -/
noncomputable def deconvFrequency (y x : List ℝ) : List ℝ :=
  (idft (List.zipWith (fun a b => a / b) (dft (y.map Complex.ofReal))
    (dft (x.map Complex.ofReal)))).map Complex.re

/-- The zero-padded Toeplitz convolution matrix of the time-domain branch of
`deconv`: `linalg.toeplitz(x, [x[0], 0, ..., 0])`, column `j` a copy of `x`
shifted down by `j` steps. -/
noncomputable def toeplitzOf (x : List ℝ) : Matrix (Fin x.length) (Fin x.length) ℝ :=
  fun i j => if (j : ℕ) ≤ (i : ℕ) then x.getD ((i : ℕ) - (j : ℕ)) 0 else 0

/-- Time-domain branch of `deconv`: `h = (XᵀX)⁻¹ Xᵀ y` (`np.linalg.inv`
raises on a singular matrix). -/
noncomputable def deconvTime (y x : List ℝ) : Except PyErr (List ℝ) :=
  let X := toeplitzOf x
  let G := X.transpose * X
  if G.det = 0 then .error .valueErr
  else
    let h := Matrix.mulVec (G⁻¹ * X.transpose) (fun i : Fin x.length => y.getD (i : ℕ) 0)
    .ok ((List.range x.length).map (fun i => if hi : i < x.length then h ⟨i, hi⟩ else 0))

/-- `deconv` of the source: dispatch on the `domain` string, raising
ValueError on an unsupported value. -/
noncomputable def deconv (y x : List ℝ) (domain : String) : Except PyErr (List ℝ) :=
  if domain = "frequency" then .ok (deconvFrequency y x)
  else if domain = "time" then deconvTime y x
  else .error .valueErr

/-- `np.multiply(h, 2**31).astype('int32')` and rebuilding an `AudioSegment`:
scale to 32-bit full range and truncate toward zero (numpy `astype` of an
out-of-range float is not defined; the truncation is the in-range behavior). -/
noncomputable def scaleToInt32 (h : List ℝ) : List ℝ :=
  h.map (fun v => ((if v * 2 ^ 31 < 0 then -(⌊-(v * 2 ^ 31)⌋) else ⌊v * 2 ^ 31⌋ : ℤ) : ℝ))

/-- Python list indexing (raises IndexError when out of range). -/
def getE {α : Type} (l : List α) (i : ℕ) : Except PyErr α :=
  match l.get? i with
  | some x => .ok x
  | none => .error .indexErr

/-- The cropping loop of the post-processing stage of `main`
(`while i < len(responses)` stepping by 2): take the two ear tracks of the next
channel; when both have `rms > 2` crop tails and heads with the speaker taken
from `CHANNELS[i//2]`, otherwise keep the one-millisecond placeholders
`left[:1]`, `right[:1]`. -/
noncomputable def processLoop (resp : List Seg) (i : ℕ) : Except PyErr (List Seg) :=
  if _h : i < resp.length then do
    let left ← getE resp i
    let right ← getE resp (i + 1)
    if pydubRMS left > 2 ∧ pydubRMS right > 2 then do
      let l1 := crop_ir_tail left
      let r1 := crop_ir_tail right
      let speaker ← getE CHANNELS (i / 2)
      let (l2, r2) ← crop_ir_head l1 r1 speaker
      let rest ← processLoop resp (i + 2)
      pure (l2 :: r2 :: rest)
    else do
      let rest ← processLoop resp (i + 2)
      pure (pySliceToMs left 1 :: pySliceToMs right 1 :: rest)
  else pure []
termination_by resp.length - i

/-- Python `max(list)`: ValueError on an empty list. -/
def pyMax (l : List ℕ) : Except PyErr ℕ :=
  match l with
  | [] => .error .valueErr
  | h :: t => .ok (t.foldl max h)

/-- The HeSuVi channel ordering table of the source. -/
def hesuvi_order : List (Speaker × Ear) :=
  [(.FL, .left), (.FL, .right), (.SL, .left), (.SL, .right), (.BL, .left), (.BL, .right),
   (.FC, .left), (.FR, .right), (.FR, .left), (.SR, .right), (.SR, .left), (.BR, .right),
   (.BR, .left), (.FC, .right)]

/-- The post-processing stage of `main` (the body of `if postprocess:` after
the responses file is available): crop every channel pair, zero-pad all
buffers to the longest, emit the standard-order HRIR and the HeSuVi-order
HRIR (`padded[IR_ORDER.index(ch)] for ch in hesuvi_order`). -/
noncomputable def postprocessStage (r : Multi) : Except PyErr (Multi × Multi) := do
  let resp := r.tracks.map (fun t => Seg.mk t r.fs r.width)
  let cropped ← processLoop resp 0
  let max_samples ← pyMax (cropped.map (fun s => s.samples.length))
  let padded := cropped.map (fun s => zero_pad s max_samples r.fs)
  let standard : Multi := ⟨padded.map Seg.samples, r.fs, r.width⟩
  let hesuviTracks ← hesuvi_order.mapM (fun ch => getE padded (IR_ORDER.indexOf ch))
  let hesuvi : Multi := ⟨hesuviTracks.map Seg.samples, r.fs, r.width⟩
  pure (standard, hesuvi)

/-- pydub `AudioSegment.silent(duration, frame_rate)`:
`int(frame_rate * duration / 1000)` zero frames (16-bit by default). -/
def silentSeg (durMs : ℚ) (fs : ℕ) : Seg :=
  ⟨List.replicate (pyTrunc (fs * durMs / 1000)).toNat 0, fs, 2⟩

/-- pydub `effects.normalize` on the multichannel pre-processed sweep file
(peak measured across all tracks), idealized like `pydubNormalize`. -/
noncomputable def multiNormalize (m : Multi) : Multi :=
  let peak := maxAbsSample m.tracks.flatten
  if peak = 0 then m
  else { m with tracks := m.tracks.map (fun t =>
    t.map (fun v => v * (maxAmplitude m.width * headroomFactor / peak))) }

/-- The track-reordering step of the pre-processing stage: named speakers go
to their canonical 14-slot position, the remaining slots become silence of the
length of the first sweep track. -/
def reorderSweeps (sweeps : List Seg) (speakers : List Speaker) (fs : ℕ) : List Seg :=
  let sweep_order := speakers.flatMap (fun s => [(s, Ear.left), (s, Ear.right)])
  IR_ORDER.map (fun ch =>
    if ch ∉ sweep_order then
      silentSeg ((pylen (sweeps.headD ⟨[], fs, 2⟩) : ℤ) : ℚ) (sweeps.headD ⟨[], fs, 2⟩).fs
    else sweeps.getD (sweep_order.indexOf ch) ⟨[], fs, 2⟩)

/-- The pre-processing stage of `main`: split the recording, reorder the
tracks into canonical slots (silence for unexcited positions), normalize to
-0.1 dB. -/
noncomputable def preprocessStage (recording : Multi) (test : Seg)
    (speakers : List Speaker) (silence_length : ℚ) : Multi :=
  let sweeps := split_recording recording test speakers silence_length
  let mono := sweeps.tracks.map (fun t => Seg.mk t sweeps.fs sweeps.width)
  let reordered := reorderSweeps mono speakers sweeps.fs
  multiNormalize ⟨reordered.map Seg.samples, sweeps.fs, sweeps.width⟩

/-- The deconvolution stage of `main` (the body of `if deconvolve:`): works on
the local variable `preprocessed` that only the pre-processing branch assigns;
checks the sample rates, zero-pads the test signal, and deconvolves every
track whose `rms > 2` in the frequency domain, passing quiet tracks through. -/
noncomputable def deconvolveStage (preprocessed : Multi) (test : Seg) :
    Except PyErr Multi := do
  if preprocessed.fs ≠ test.fs then throw .valueErr
  let test_padded := zero_pad test (preprocessed.tracks.headD []).length preprocessed.fs
  let x := test_padded.samples
  let responses ← preprocessed.tracks.mapM (fun t => do
    let lines := Seg.mk t preprocessed.fs preprocessed.width
    if pydubRMS lines > 2 then do
      let h ← deconv lines.samples x "frequency"
      pure (scaleToInt32 h)
    else pure t)
  pure ⟨responses, preprocessed.fs, 4⟩

/-- The arguments of `main` (file-path arguments are modelled by the loaded
contents; `None` by `Option.none`). -/
structure Args where
  measure : Bool := false
  preprocess : Bool := false
  deconvolve : Bool := false
  postprocess : Bool := false
  equalize : Bool := false
  recording : Option Multi := none
  test : Option Seg := none
  responses : Option Multi := none
  speakers : Option (List Speaker) := none
  silence_length : Option ℚ := none
  headphones : Option Multi := none

/-- The files `main` writes into `out/` (headphone CSV export is plain I/O,
out of scope, and not tracked). -/
structure MainOut where
  preprocessedOut : Option Multi := none
  testsOut : Option Multi := none
  responsesOut : Option Multi := none
  hrirOut : Option Multi := none
  hesuviOut : Option Multi := none

/-- Python falsiness of the `speakers` argument (`not speakers`): missing or
an empty list. -/
def speakersFalsy : Option (List Speaker) → Bool
  | none => true
  | some l => l.isEmpty

/-- Python falsiness of the `silence_length` argument: missing or `0.0`. -/
def silenceFalsy : Option ℚ → Bool
  | none => true
  | some v => v = 0

/-- The parameter checks at the top of `main`, in source order. -/
def paramChecks (a : Args) : Except PyErr Unit := do
  if (a.preprocess || a.postprocess) && speakersFalsy a.speakers then
    throw (.typeErr "speakers")
  if a.preprocess then
    if a.recording.isNone && !a.measure then throw (.typeErr "recording")
    if a.test.isNone then throw (.typeErr "test")
    if silenceFalsy a.silence_length then throw (.typeErr "silence_length")
  if a.deconvolve then
    if a.recording.isNone then throw (.typeErr "recording")
    if a.test.isNone then throw (.typeErr "test")
  if a.postprocess then
    if a.responses.isNone && !a.deconvolve then throw (.typeErr "responses")
  if a.equalize then
    if a.headphones.isNone then throw (.typeErr "headphones")
  pure ()

/-- `main` of the source.  `measure` raises NotImplementedError first; then
the parameter checks run; then the requested stages run in order.  The local
variable `preprocessed` is assigned only by the pre-processing branch, so the
deconvolution branch's read of it raises UnboundLocalError (`PyErr.nameErr`)
when pre-processing was not requested.  The local `responses` holds the loaded
responses file when post-processing was requested with one, and is overwritten
by the deconvolution output when deconvolution ran. -/
noncomputable def main (a : Args) : Except PyErr MainOut := do
  if a.measure then throw .notImplErr
  paramChecks a
  let mut out : MainOut := {}
  let mut preprocessedVar : Option Multi := none
  let mut responsesVar : Option Multi := if a.postprocess then a.responses else none
  if a.preprocess then
    match a.recording, a.test, a.speakers, a.silence_length with
    | some recording, some test, some speakers, some silence_length =>
      let preprocessed := preprocessStage recording test speakers silence_length
      let test_duplicated : Multi :=
        ⟨List.replicate preprocessed.tracks.length test.samples, test.fs, test.width⟩
      preprocessedVar := some preprocessed
      out := { out with preprocessedOut := some preprocessed, testsOut := some test_duplicated }
    | _, _, _, _ => throw (.typeErr "recording")
  if a.deconvolve then
    match preprocessedVar with
    | none => throw .nameErr
    | some preprocessed =>
      match a.test with
      | none => throw (.typeErr "test")
      | some test =>
        let responses ← deconvolveStage preprocessed test
        responsesVar := some responses
        out := { out with responsesOut := some responses }
  if a.postprocess then
    match responsesVar with
    | none => throw .nameErr
    | some responses =>
      let (standard, hesuvi) ← postprocessStage responses
      out := { out with hrirOut := some standard, hesuviOut := some hesuvi }
  pure out

/-- The noise floor as the spec's words describe it: the larger of ten times
the mean of the RMS values of the LAST TEN one-millisecond windows and the
fixed floor `10^(-6)`.  Stated independently of the source's slice expression,
for comparison with `tailNoiseFloor`. -/
noncomputable def tailNoiseFloorSpecTen (s : Seg) : ℝ :=
  let rms := tailRMSList s
  max (10 * listMean (rms.drop (rms.length - 10))) (1 / 1000000)

/-- The noise floor the code actually computes, stated independently: ten
times the mean of the NINE windows from the tenth-last through the
second-last (the final window is excluded), or the fixed floor, whichever is
larger. -/
noncomputable def tailNoiseFloorSpecNine (s : Seg) : ℝ :=
  let rms := tailRMSList s
  max (10 * listMean (rms.dropLast.drop (rms.length - 10))) (1 / 1000000)

theorem pyIndex_zero (n : ℕ) : pyIndex n 0 = 0 := by
  simp [pyIndex]

theorem length_pySliceL_le {α : Type} (l : List α) (a b : ℤ) :
    (pySliceL l a b).length ≤ l.length := by
  unfold pySliceL
  calc ((l.take (pyIndex l.length b)).drop (pyIndex l.length a)).length
      ≤ (l.take (pyIndex l.length b)).length := by
        rw [List.length_drop]; omega
    _ ≤ l.length := by rw [List.length_take]; omega

theorem pySliceToMs_length_le (s : Seg) (e : ℚ) :
    (pySliceToMs s e).samples.length ≤ s.samples.length :=
  length_pySliceL_le s.samples 0 (segParse s e)

theorem to_float_two (v : ℝ) : to_float 2 v = v / 2 ^ 15 := by
  simp [to_float]

theorem tailRMS_singleton (s : Seg) (hf : s.fs = 1000) (hw : s.width = 2) (i : ℕ)
    (hi : i < s.samples.length) :
    tailRMS s i = |s.samples.get ⟨i, hi⟩| / 2 ^ 15 := by
  simp only [tailRMS, hf, hw]
  have hn : (1000 : ℕ) / 1000 = 1 := rfl
  rw [hn, mul_one]
  have hdrop : s.samples.drop i = s.samples.get ⟨i, hi⟩ :: s.samples.drop (i + 1) :=
    List.drop_eq_get_cons hi
  rw [hdrop]
  simp only [List.take_cons_succ, List.take_zero, List.map_cons, List.map_nil,
    List.sum_cons, List.sum_nil, List.length_cons, List.length_nil]
  rw [to_float_two]
  have : ((s.samples.get ⟨i, hi⟩ / 2 ^ 15) ^ 2 + 0) / ((0 + 1 : ℕ) : ℝ) =
      (s.samples.get ⟨i, hi⟩ / 2 ^ 15) ^ 2 := by norm_num
  rw [this, Real.sqrt_sq_eq_abs, abs_div]
  norm_num

theorem pyRound_natCast (n : ℕ) : pyRound (n : ℚ) = n := by
  simp [pyRound, Int.floor_natCast]

theorem pylen_of_fs1000 (s : Seg) (hf : s.fs = 1000) : pylen s = s.samples.length := by
  unfold pylen
  rw [hf]
  have : (1000 : ℚ) * s.samples.length / ((1000 : ℕ) : ℚ) = (s.samples.length : ℚ) := by
    push_cast
    ring
  rw [this, pyRound_natCast]

theorem getD_replicate_zero (n i : ℕ) : (List.replicate n (0 : ℝ)).getD i 0 = 0 := by
  induction n generalizing i with
  | zero => simp [List.getD]
  | succ m ih =>
    cases i with
    | zero => simp [List.replicate, List.getD]
    | succ j => simpa [List.replicate, List.getD] using ih j

theorem tailRMSList_replicate_zero (k : ℕ) :
    tailRMSList ⟨List.replicate k 0, 1000, 2⟩ = List.replicate (k - 1) 0 := by
  apply List.eq_replicate.2
  constructor
  · simp [tailRMSList, pylen_of_fs1000]
  · intro b hb
    simp only [tailRMSList] at hb
    obtain ⟨i, hi, hval⟩ := List.mem_map.1 hb
    rw [List.mem_range] at hi
    rw [pylen_of_fs1000 _ rfl] at hi
    simp only [List.length_replicate] at hi
    have hik : i < k := by
      simp only [Int.toNat_natCast] at hi
      omega
    rw [tailRMS_singleton _ rfl rfl i (by simpa using hik)] at hval
    rw [List.get_replicate] at hval
    rw [abs_zero, zero_div] at hval
    exact hval.symm

theorem listMean_replicate_zero (n : ℕ) : listMean (List.replicate n (0 : ℝ)) = 0 := by
  simp [listMean]

theorem tailNoiseFloor_replicate_zero (k : ℕ) :
    tailNoiseFloor ⟨List.replicate k 0, 1000, 2⟩ = 1 / 1000000 := by
  unfold tailNoiseFloor
  rw [tailRMSList_replicate_zero]
  unfold pySliceL
  rw [List.take_replicate, List.drop_replicate, List.length_replicate]
  rw [listMean_replicate_zero]
  norm_num

theorem crop_ir_tail_def (s : Seg) :
    crop_ir_tail s = pySliceToMs s
      ((tailScan (tailRMSList s) (tailNoiseFloor s)
        ((List.range' 2 ((tailRMSList s).length - 2)).reverse) (-1) : ℤ) : ℚ) := rfl

theorem crop_ir_tail_zero5 :
    crop_ir_tail ⟨List.replicate 5 0, 1000, 2⟩ = ⟨List.replicate 2 0, 1000, 2⟩ := by
  rw [crop_ir_tail_def]
  rw [tailRMSList_replicate_zero, tailNoiseFloor_replicate_zero]
  have hscan : tailScan (List.replicate (5 - 1) (0 : ℝ)) (1 / 1000000)
      ((List.range' 2 ((List.replicate (5 - 1) (0 : ℝ)).length - 2)).reverse) (-1) = 2 := by
    norm_num [List.range', tailScan, getD_replicate_zero]
  rw [hscan]
  unfold pySliceToMs segParse
  have hlen : pylen ⟨List.replicate 5 0, 1000, 2⟩ = 5 := by
    rw [pylen_of_fs1000 _ rfl]; simp
  rw [hlen]
  norm_num [pyTrunc, pySliceL, pyIndex, List.take_replicate]
  decide

theorem crop_ir_tail_zero2 :
    crop_ir_tail ⟨List.replicate 2 0, 1000, 2⟩ = ⟨List.replicate 1 0, 1000, 2⟩ := by
  rw [crop_ir_tail_def]
  rw [tailRMSList_replicate_zero, tailNoiseFloor_replicate_zero]
  have hscan : tailScan (List.replicate (2 - 1) (0 : ℝ)) (1 / 1000000)
      ((List.range' 2 ((List.replicate (2 - 1) (0 : ℝ)).length - 2)).reverse) (-1) = -1 := by
    norm_num [List.range', tailScan]
  rw [hscan]
  unfold pySliceToMs segParse
  have hlen : pylen ⟨List.replicate 2 0, 1000, 2⟩ = 2 := by
    rw [pylen_of_fs1000 _ rfl]; simp
  rw [hlen]
  norm_num [pyTrunc, pySliceL, pyIndex, List.take_replicate]

theorem crop_ir_tail_length_le (s : Seg) :
    (crop_ir_tail s).samples.length ≤ s.samples.length := by
  rw [crop_ir_tail_def]
  apply pySliceToMs_length_le

/-- C6 counterexample: tail cropping is not idempotent.  On the 5-sample
all-zero 1 kHz buffer the first crop keeps 2 samples (the backward scan never
visits windows 0 and 1, so `end` bottoms out at 2), and the second crop keeps
only 1 sample (a 2 ms buffer has an empty scan range, leaving `end = -1`,
which slices off the final millisecond). -/
theorem claim_C6_counterexample :
    (crop_ir_tail (crop_ir_tail ⟨List.replicate 5 0, 1000, 2⟩)).samples.length ≠
      (crop_ir_tail ⟨List.replicate 5 0, 1000, 2⟩).samples.length := by
  rw [crop_ir_tail_zero5, crop_ir_tail_zero2]
  simp

/-- C6 amended: a second application of tail cropping never lengthens the
buffer (it can, however, shorten it further, as the counterexample shows). -/
theorem claim_C6 (b : Seg) :
    (crop_ir_tail (crop_ir_tail b)).samples.length ≤ (crop_ir_tail b).samples.length :=
  crop_ir_tail_length_le (crop_ir_tail b)

theorem foldl_max_le_acc (t : List ℕ) : ∀ a, a ≤ t.foldl max a := by
  induction t with
  | nil => intro a; simp
  | cons b t ih => intro a; exact le_trans (le_max_left a b) (ih (max a b))

theorem le_foldl_max (t : List ℕ) : ∀ a x, x = a ∨ x ∈ t → x ≤ t.foldl max a := by
  induction t with
  | nil =>
    intro a x h
    rcases h with rfl | h
    · simp
    · cases h
  | cons b t ih =>
    intro a x h
    rcases h with rfl | h
    · exact le_trans (le_max_left x b) (foldl_max_le_acc t (max x b))
    · rcases List.mem_cons.1 h with rfl | h
      · exact le_trans (le_max_right a x) (foldl_max_le_acc t (max a x))
      · exact ih (max a b) x (Or.inr h)

theorem pyMax_ok_le (l : List ℕ) (m : ℕ) (h : pyMax l = .ok m) (x : ℕ) (hx : x ∈ l) :
    x ≤ m := by
  cases l with
  | nil => cases hx
  | cons a t =>
    simp only [pyMax, Except.ok.injEq] at h
    subst h
    rcases List.mem_cons.1 hx with rfl | hx
    · exact le_foldl_max t x x (Or.inl rfl)
    · exact le_foldl_max t a x (Or.inr hx)


theorem tailScan_all_below (rms : List ℝ) (nf : ℝ) (a : ℕ) :
    ∀ (k : ℕ) (e : ℤ), (∀ j ∈ List.range' a k, ¬ rms.getD j 0 > nf) →
      tailScan rms nf ((List.range' a k).reverse) e = if k = 0 then e else a := by
  intro k
  induction k with
  | zero => intro e _; simp [tailScan]
  | succ m ih =>
    intro e hb
    rw [List.range'_1_concat, List.reverse_append]
    simp only [List.reverse_singleton, List.singleton_append]
    rw [tailScan]
    rw [if_neg (hb (a + m) (by simp))]
    have := ih (a + m) (fun j hj => hb j (by
      rw [List.range'_1_concat]
      exact List.mem_append.2 (Or.inl hj)))
    push_cast
    rw [this]
    rcases Nat.eq_zero_or_pos m with rfl | hm
    · simp
    · rw [if_neg (by omega)]

theorem tailScan_found (rms : List ℝ) (nf : ℝ) (a j0 : ℕ) (hj0 : rms.getD j0 0 > nf) :
    ∀ (k : ℕ) (e : ℤ), a ≤ j0 → j0 < a + k →
      (∀ j, j0 < j → j < a + k → ¬ rms.getD j 0 > nf) →
      tailScan rms nf ((List.range' a k).reverse) e =
        if j0 = a + k - 1 then e else (j0 : ℤ) + 1 := by
  intro k
  induction k with
  | zero => intro e h1 h2 _; omega
  | succ m ih =>
    intro e h1 h2 hup
    rw [List.range'_1_concat, List.reverse_append]
    simp only [List.reverse_singleton, List.singleton_append]
    rw [tailScan]
    by_cases htop : j0 = a + m
    · subst htop
      rw [if_pos hj0]
      rw [if_pos (by omega)]
    · have hlt : j0 < a + m := by omega
      rw [if_neg (hup (a + m) hlt (by omega))]
      have := ih (a + m) h1 hlt (fun j hja hjb => hup j hja (by omega))
      push_cast
      rw [this]
      by_cases hend : j0 = a + m - 1
      · rw [if_pos hend, if_neg (by omega)]
        omega
      · rw [if_neg hend, if_neg (by omega)]


theorem pyTrunc_intCast (z : ℤ) : pyTrunc (z : ℚ) = z := by
  unfold pyTrunc
  by_cases h : (z : ℚ) < 0
  · rw [if_pos h]
    rw [← Int.cast_neg, Int.floor_intCast]
    ring
  · rw [if_neg h, Int.floor_intCast]

theorem pylen_aligned (s : Seg) (k L : ℕ) (hfs : s.fs = 1000 * k) (hk : 0 < k)
    (hlen : s.samples.length = L * k) : pylen s = L := by
  unfold pylen
  rw [hfs, hlen]
  have hkq : ((k : ℚ)) ≠ 0 := by positivity
  have : (1000 : ℚ) * ((L * k : ℕ) : ℚ) / (((1000 * k : ℕ) : ℚ)) = (L : ℚ) := by
    push_cast
    field_simp
    ring
  rw [this, pyRound_natCast]

theorem segParse_intCast (s : Seg) (k L : ℕ) (e : ℤ) (hfs : s.fs = 1000 * k)
    (hk : 0 < k) (hlen : s.samples.length = L * k) (he0 : 0 ≤ e) (heL : e ≤ L) :
    segParse s (e : ℚ) = e * k := by
  unfold segParse
  have hpl : pylen s = L := pylen_aligned s k L hfs hk hlen
  rw [hpl, hfs]
  have hmin : min ((e : ℤ) : ℚ) (((L : ℕ) : ℤ) : ℚ) = ((e : ℤ) : ℚ) := by
    apply min_eq_left
    push_cast
    exact_mod_cast heL
  simp only [hmin]
  have hge : ¬ ((e : ℤ) : ℚ) < 0 := not_lt.2 (by exact_mod_cast he0)
  rw [if_neg hge]
  have : ((e : ℤ) : ℚ) * (((1000 * k : ℕ)) : ℚ) / 1000 = ((e * k : ℤ) : ℚ) := by
    push_cast
    ring
  rw [this, pyTrunc_intCast]

theorem segParse_neg_one (s : Seg) (k L : ℕ) (hfs : s.fs = 1000 * k) (hk : 0 < k)
    (hlen : s.samples.length = L * k) (hL : 1 ≤ L) :
    segParse s (-1 : ℚ) = ((L : ℤ) - 1) * k := by
  unfold segParse
  have hpl : pylen s = L := pylen_aligned s k L hfs hk hlen
  rw [hpl, hfs]
  have hmin : min ((-1 : ℚ)) (((L : ℕ) : ℤ) : ℚ) = (-1 : ℚ) := by
    apply min_eq_left
    have : (0 : ℚ) ≤ ((L : ℕ) : ℚ) := by positivity
    push_cast
    linarith
  simp only [hmin]
  rw [if_pos (by norm_num)]
  have : (((L : ℕ) : ℤ) - |(-1 : ℚ)| : ℚ) * (((1000 * k : ℕ)) : ℚ) / 1000 =
      ((((L : ℤ) - 1) * k : ℤ) : ℚ) := by
    push_cast
    rw [abs_of_nonpos (by norm_num)]
    ring
  rw [this, pyTrunc_intCast]

theorem pySliceToMs_intCast (s : Seg) (k L : ℕ) (e : ℤ) (hfs : s.fs = 1000 * k)
    (hk : 0 < k) (hlen : s.samples.length = L * k) (he0 : 0 ≤ e) (heL : e ≤ L) :
    (pySliceToMs s (e : ℚ)).samples = s.samples.take (e.toNat * k) := by
  unfold pySliceToMs
  rw [segParse_intCast s k L e hfs hk hlen he0 heL]
  unfold pySliceL
  rw [pyIndex_zero, List.drop_zero]
  congr 1
  unfold pyIndex
  rw [if_neg (not_lt.2 (mul_nonneg he0 (by positivity)))]
  have h1 : (e * (k : ℤ)).toNat = e.toNat * k := by
    rcases Int.eq_ofNat_of_zero_le he0 with ⟨n, rfl⟩
    rw [← Nat.cast_mul, Int.toNat_natCast, Int.toNat_natCast]
  rw [h1, hlen]
  have hmm : e.toNat * k ≤ L * k := Nat.mul_le_mul (by omega) (le_refl k)
  rw [min_eq_left hmm]

theorem pySliceToMs_neg_one (s : Seg) (k L : ℕ) (hfs : s.fs = 1000 * k)
    (hk : 0 < k) (hlen : s.samples.length = L * k) (hL : 1 ≤ L) :
    (pySliceToMs s (-1 : ℚ)).samples = s.samples.take ((L - 1) * k) := by
  unfold pySliceToMs
  rw [segParse_neg_one s k L hfs hk hlen hL]
  unfold pySliceL
  rw [pyIndex_zero, List.drop_zero]
  congr 1
  unfold pyIndex
  have hnn : (0 : ℤ) ≤ ((L : ℤ) - 1) * k := by
    have : (1 : ℤ) ≤ (L : ℤ) := by exact_mod_cast hL
    have : (0 : ℤ) ≤ (L : ℤ) - 1 := by omega
    positivity
  rw [if_neg (not_lt.2 hnn)]
  have h1 : (((L : ℤ) - 1) * (k : ℤ)).toNat = (L - 1) * k := by
    have h2 : ((L : ℤ) - 1) = ((L - 1 : ℕ) : ℤ) := by omega
    rw [h2, ← Nat.cast_mul, Int.toNat_natCast]
  rw [h1, hlen]
  have hmm : (L - 1) * k ≤ L * k := Nat.mul_le_mul (by omega) (le_refl k)
  rw [min_eq_left hmm]

theorem getD_map_range (f : ℕ → ℝ) (n j : ℕ) (h : j < n) :
    ((List.range n).map f).getD j 0 = f j := by
  rw [List.getD_eq_getElem _ _ (by simpa using h)]
  simp

theorem tailRMSList_length (s : Seg) : (tailRMSList s).length = (pylen s).toNat - 1 := by
  simp [tailRMSList]

theorem tailRMSList_getD (s : Seg) (j : ℕ) (h : j < (pylen s).toNat - 1) :
    (tailRMSList s).getD j 0 = tailRMS s j :=
  getD_map_range (tailRMS s) _ j h


theorem crop_ir_tail_cases (s : Seg) (k L : ℕ) (hfs : s.fs = 1000 * k) (hk : 0 < k)
    (hlen : s.samples.length = L * k) (hL : 4 ≤ L) :
    (∀ j0, 2 ≤ j0 → j0 ≤ L - 2 → tailRMS s j0 > tailNoiseFloor s →
      (∀ j, j0 < j → j ≤ L - 2 → tailRMS s j ≤ tailNoiseFloor s) →
      (crop_ir_tail s).samples = s.samples.take ((j0 + 1) * k)) ∧
    ((∀ j, 2 ≤ j → j ≤ L - 2 → tailRMS s j ≤ tailNoiseFloor s) →
      (crop_ir_tail s).samples = s.samples.take (2 * k)) := by
  have hpl : pylen s = L := pylen_aligned s k L hfs hk hlen
  have hrl : (tailRMSList s).length = L - 1 := by
    rw [tailRMSList_length, hpl]
    omega
  have hgd : ∀ j, j ≤ L - 2 → (tailRMSList s).getD j 0 = tailRMS s j := by
    intro j hj
    apply tailRMSList_getD
    rw [hpl]
    omega
  constructor
  · intro j0 h2 hle hx hup
    rw [crop_ir_tail_def, hrl]
    have hcnt : L - 1 - 2 = L - 3 := by omega
    rw [hcnt]
    have hscan := tailScan_found (tailRMSList s) (tailNoiseFloor s) 2 j0
      (by rw [hgd j0 hle]; exact hx) (L - 3) (-1) (by omega) (by omega)
      (fun j hja hjb => by
        rw [hgd j (by omega)]
        exact not_lt.2 (hup j hja (by omega)))
    rw [hscan]
    by_cases hj : j0 = 2 + (L - 3) - 1
    · rw [if_pos hj]
      have hj0 : j0 = L - 2 := by omega
      have hev := pySliceToMs_neg_one s k L hfs hk hlen (by omega)
      have hcast : (((-1 : ℤ)) : ℚ) = (-1 : ℚ) := by norm_num
      rw [hcast, hev]
      have hh : j0 + 1 = L - 1 := by omega
      rw [hh]
    · rw [if_neg hj]
      have hc1 : ((j0 : ℤ) + 1) = (((j0 + 1 : ℕ) : ℤ)) := by push_cast; ring
      rw [hc1]
      have hev := pySliceToMs_intCast s k L ((j0 + 1 : ℕ) : ℤ) hfs hk hlen
        (by positivity) (by exact_mod_cast (by omega : j0 + 1 ≤ L))
      rw [hev, Int.toNat_natCast]
  · intro hall
    rw [crop_ir_tail_def, hrl]
    have hcnt : L - 1 - 2 = L - 3 := by omega
    rw [hcnt]
    have hscan := tailScan_all_below (tailRMSList s) (tailNoiseFloor s) 2 (L - 3) (-1)
      (fun j hj => by
        rw [List.mem_range'_1] at hj
        rw [hgd j (by omega)]
        exact not_lt.2 (hall j hj.1 (by omega)))
    rw [hscan, if_neg (by omega)]
    have := pySliceToMs_intCast s k L 2 hfs hk hlen (by norm_num)
      (by exact_mod_cast (by omega : 2 ≤ L))
    exact this


/-- C4 (amended): `crop_ir_tail`'s backward scan only ever visits windows
with index at least 2 (in 0-based window indices; the final window of the
buffer is also never part of the RMS list).  For an aligned buffer of
`L ≥ 4` milliseconds: if the last window of index in `[2, L-2]` whose RMS
exceeds the noise floor is `j0`, the buffer is truncated immediately after
window `j0` (every sample up to and including that window is kept, nothing
more); if no window of index in `[2, L-2]` exceeds the floor, exactly the
first two windows (2 ms) are kept - and in neither case does anything crash.
(The claim as frozen - truncation immediately after the last exceeding window
of ANY index, maximal truncation otherwise - fails when only window 0 exceeds
the floor; see the counterexample.) -/
theorem claim_C4 (s : Seg) (k L : ℕ) (hfs : s.fs = 1000 * k) (hk : 0 < k)
    (hlen : s.samples.length = L * k) (hL : 4 ≤ L) :
    (∀ j0, 2 ≤ j0 → j0 ≤ L - 2 → tailRMS s j0 > tailNoiseFloor s →
      (∀ j, j0 < j → j ≤ L - 2 → tailRMS s j ≤ tailNoiseFloor s) →
      (crop_ir_tail s).samples = s.samples.take ((j0 + 1) * k)) ∧
    ((∀ j, 2 ≤ j → j ≤ L - 2 → tailRMS s j ≤ tailNoiseFloor s) →
      (crop_ir_tail s).samples = s.samples.take (2 * k)) :=
  crop_ir_tail_cases s k L hfs hk hlen hL


theorem tailRMS_eval (s : Seg) (hf : s.fs = 1000) (hw : s.width = 2) (j : ℕ)
    (hj : j < s.samples.length) :
    tailRMS s j = |s.samples.getD j 0| / 2 ^ 15 := by
  rw [tailRMS_singleton s hf hw j hj]
  congr 2
  rw [List.getD_eq_getElem _ _ hj]
  simp [List.get_eq_getElem]

theorem tailNoiseFloor_16 (s : Seg) (hf : s.fs = 1000) (hw : s.width = 2)
    (h16 : s.samples.length = 16)
    (hz : ∀ j, 5 ≤ j → j ≤ 13 → s.samples.getD j 0 = 0) :
    tailNoiseFloor s = 1 / 1000000 := by
  unfold tailNoiseFloor
  have hrl : (tailRMSList s).length = 15 := by
    rw [tailRMSList_length, pylen_of_fs1000 s hf, h16]
    decide
  have hp1 : pyIndex 15 (-1) = 14 := by decide
  have hp10 : pyIndex 15 (-10) = 5 := by decide
  have hslice : pySliceL (tailRMSList s) (-10) (-1) =
      ((tailRMSList s).take 14).drop 5 := by
    unfold pySliceL
    rw [hrl, hp1, hp10]
  rw [hslice]
  have hrep : ((tailRMSList s).take 14).drop 5 = List.replicate 9 0 := by
    apply List.eq_replicate.2
    refine ⟨?_, ?_⟩
    · rw [List.length_drop, List.length_take, hrl]
      decide
    · intro b hb
      obtain ⟨i, hi, hval⟩ := List.mem_iff_getElem.1 hb
      have hi9 : i < 9 := by
        rw [List.length_drop, List.length_take, hrl] at hi
        omega
      rw [List.getElem_drop, List.getElem_take] at hval
      have hj16 : 5 + i < s.samples.length := by omega
      have hj15 : 5 + i < (tailRMSList s).length := by omega
      have hgd : (tailRMSList s)[5 + i] = (tailRMSList s).getD (5 + i) 0 :=
        (List.getD_eq_getElem _ _ hj15).symm
      rw [hgd] at hval
      rw [tailRMSList_getD s (5 + i) (by rw [pylen_of_fs1000 s hf, h16]; omega)] at hval
      rw [tailRMS_eval s hf hw (5 + i) hj16] at hval
      rw [hz (5 + i) (by omega) (by omega)] at hval
      rw [abs_zero, zero_div] at hval
      exact hval.symm
  rw [hrep, listMean_replicate_zero]
  norm_num


theorem tailRMSList_getElem (s : Seg) (i : ℕ) (hi : i < (tailRMSList s).length) :
    (tailRMSList s)[i] = tailRMS s i := by
  rw [← List.getD_eq_getElem (tailRMSList s) 0 hi]
  exact tailRMSList_getD s i (by rw [tailRMSList_length] at hi; exact hi)

theorem tailRMSList_bc4 :
    tailRMSList ⟨(20000 : ℝ) :: List.replicate 15 0, 1000, 2⟩ =
      (20000 / 2 ^ 15 : ℝ) :: List.replicate 14 0 := by
  have h16 : (Seg.mk ((20000 : ℝ) :: List.replicate 15 0) 1000 2).samples.length = 16 := by
    simp
  have hrl : (tailRMSList (Seg.mk ((20000 : ℝ) :: List.replicate 15 0) 1000 2)).length = 15 := by
    rw [tailRMSList_length, pylen_of_fs1000 _ rfl, h16]
    decide
  apply List.ext_getElem
  · rw [hrl]; simp
  · intro i h1 h2
    have hi15 : i < 15 := by rw [hrl] at h1; exact h1
    rw [tailRMSList_getElem _ i h1]
    rw [tailRMS_eval _ rfl rfl i (by rw [h16]; omega)]
    cases i with
    | zero =>
      simp only [List.getD_cons_zero, List.getElem_cons_zero]
      rw [abs_of_pos (by norm_num)]
    | succ j =>
      simp only [List.getD_cons_succ, List.getElem_cons_succ]
      rw [getD_replicate_zero, abs_zero, zero_div]
      rw [List.getElem_replicate]

theorem tailRMSList_bc5 :
    tailRMSList ⟨List.replicate 14 (0 : ℝ) ++ [2000, 0], 1000, 2⟩ =
      List.replicate 14 (0 : ℝ) ++ [2000 / 2 ^ 15] := by
  have h16 : (Seg.mk (List.replicate 14 (0 : ℝ) ++ [2000, 0]) 1000 2).samples.length = 16 := by
    simp
  have hrl : (tailRMSList (Seg.mk (List.replicate 14 (0 : ℝ) ++ [2000, 0]) 1000 2)).length = 15 := by
    rw [tailRMSList_length, pylen_of_fs1000 _ rfl, h16]
    decide
  apply List.ext_getElem
  · rw [hrl]; simp
  · intro i h1 h2
    have hi15 : i < 15 := by rw [hrl] at h1; exact h1
    rw [tailRMSList_getElem _ i h1]
    rw [tailRMS_eval _ rfl rfl i (by rw [h16]; omega)]
    by_cases hi : i < 14
    · have hL : (List.replicate 14 (0 : ℝ) ++ [2000, 0]).getD i 0 = 0 := by
        rw [List.getD_eq_getElem _ 0 (by simp; omega)]
        rw [List.getElem_append_left (by simpa using hi)]
        exact List.getElem_replicate ..
      rw [hL, abs_zero, zero_div]
      rw [List.getElem_append_left (by simpa using hi), List.getElem_replicate]
    · have hi14 : i = 14 := by omega
      subst hi14
      have hL : (List.replicate 14 (0 : ℝ) ++ [2000, 0]).getD 14 0 = 2000 := by
        rw [List.getD_eq_getElem _ 0 (by simp)]
        rw [List.getElem_append_right (by simp)]
        simp
      rw [hL, abs_of_pos (by norm_num)]
      rw [List.getElem_append_right (by simp)]
      simp


theorem bc4_getD_succ (j : ℕ) :
    (((20000 : ℝ) :: List.replicate 15 0).getD (j + 1) 0) = 0 := by
  rw [List.getD_cons_succ]
  exact getD_replicate_zero 15 j

theorem tailNoiseFloor_bc4 :
    tailNoiseFloor ⟨(20000 : ℝ) :: List.replicate 15 0, 1000, 2⟩ = 1 / 1000000 := by
  apply tailNoiseFloor_16 _ rfl rfl (by simp)
  intro j h5 _h13
  cases j with
  | zero => omega
  | succ j => exact bc4_getD_succ j

theorem crop_ir_tail_bc4 :
    (crop_ir_tail ⟨(20000 : ℝ) :: List.replicate 15 0, 1000, 2⟩).samples =
      [(20000 : ℝ), 0] := by
  have h := (crop_ir_tail_cases ⟨(20000 : ℝ) :: List.replicate 15 0, 1000, 2⟩ 1 16
    (by norm_num) one_pos (by simp) (by norm_num)).2
  rw [h (by
    intro j h2 h14
    rw [tailRMS_eval _ rfl rfl j (by simp; omega), tailNoiseFloor_bc4]
    cases j with
    | zero => omega
    | succ j' =>
      rw [bc4_getD_succ j', abs_zero, zero_div]
      norm_num)]
  norm_num [List.take_succ_cons, List.take_replicate]

/-- C4 counterexample: the 16-sample 1 kHz buffer whose only non-silent
window is window 0.  The RMS envelope is `20000/2^15` followed by fourteen
zeros, the noise floor is the fixed `10^(-6)`, so the last window exceeding
the floor is window 0 - yet `crop_ir_tail` keeps TWO windows (`[20000, 0]`),
not just the samples up to and including window 0: the backward scan stops at
index 2 and can never truncate to fewer than 2 ms. -/
theorem claim_C4_counterexample :
    tailRMSList ⟨(20000 : ℝ) :: List.replicate 15 0, 1000, 2⟩ =
      (20000 / 2 ^ 15 : ℝ) :: List.replicate 14 0 ∧
    tailNoiseFloor ⟨(20000 : ℝ) :: List.replicate 15 0, 1000, 2⟩ = 1 / 1000000 ∧
    (20000 / 2 ^ 15 : ℝ) > 1 / 1000000 ∧
    (crop_ir_tail ⟨(20000 : ℝ) :: List.replicate 15 0, 1000, 2⟩).samples =
      [(20000 : ℝ), 0] ∧
    ([(20000 : ℝ), 0]).length ≠ 1 :=
  ⟨tailRMSList_bc4, tailNoiseFloor_bc4, by norm_num, crop_ir_tail_bc4, by simp⟩

/-- C4 witness for the amended claim, at the 16-sample 1 kHz buffer whose
only non-silent window is window 3: the buffer is truncated immediately after
window 3 (4 samples kept). -/
theorem claim_C4_witness :
    (Seg.mk ((0 : ℝ) :: 0 :: 0 :: 20000 :: List.replicate 12 0) 1000 2).fs = 1000 * 1 ∧
    (Seg.mk ((0 : ℝ) :: 0 :: 0 :: 20000 :: List.replicate 12 0) 1000 2).samples.length = 16 * 1 ∧
    (crop_ir_tail ⟨(0 : ℝ) :: 0 :: 0 :: 20000 :: List.replicate 12 0, 1000, 2⟩).samples =
      ((0 : ℝ) :: 0 :: 0 :: 20000 :: List.replicate 12 0).take ((3 + 1) * 1) := by
  have hgd : ∀ j, 4 ≤ j →
      (((0 : ℝ) :: 0 :: 0 :: 20000 :: List.replicate 12 0).getD j 0) = 0 := by
    intro j h4
    match j, h4 with
    | (j' + 4), _ =>
      simp only [List.getD_cons_succ]
      exact getD_replicate_zero 12 j'
  have hnf : tailNoiseFloor ⟨(0 : ℝ) :: 0 :: 0 :: 20000 :: List.replicate 12 0, 1000, 2⟩ =
      1 / 1000000 := by
    apply tailNoiseFloor_16 _ rfl rfl (by simp)
    intro j h5 _h13
    exact hgd j (by omega)
  refine ⟨by norm_num, by simp, ?_⟩
  apply (claim_C4 ⟨(0 : ℝ) :: 0 :: 0 :: 20000 :: List.replicate 12 0, 1000, 2⟩ 1 16
    (by norm_num) one_pos (by simp) (by norm_num)).1 3 (by norm_num) (by norm_num)
  · rw [tailRMS_eval _ rfl rfl 3 (by simp), hnf]
    simp only [List.getD_cons_succ, List.getD_cons_zero]
    rw [abs_of_pos (by norm_num)]
    norm_num
  · intro j h3 h14
    rw [tailRMS_eval _ rfl rfl j (by simp; omega), hnf]
    rw [hgd j (by omega), abs_zero, zero_div]
    norm_num


theorem bc5_getD_le13 (j : ℕ) (hj : j ≤ 13) :
    ((List.replicate 14 (0 : ℝ) ++ [2000, 0]).getD j 0) = 0 := by
  rw [List.getD_eq_getElem _ 0 (by simp; omega)]
  rw [List.getElem_append_left (by simp; omega)]
  exact List.getElem_replicate ..

theorem tailNoiseFloor_bc5 :
    tailNoiseFloor ⟨List.replicate 14 (0 : ℝ) ++ [2000, 0], 1000, 2⟩ = 1 / 1000000 := by
  apply tailNoiseFloor_16 _ rfl rfl (by simp)
  intro j h5 h13
  exact bc5_getD_le13 j h13

theorem tailNoiseFloorSpecTen_bc5 :
    tailNoiseFloorSpecTen ⟨List.replicate 14 (0 : ℝ) ++ [2000, 0], 1000, 2⟩ =
      2000 / 2 ^ 15 := by
  unfold tailNoiseFloorSpecTen
  rw [tailRMSList_bc5]
  show max (10 * listMean ((List.replicate 14 (0 : ℝ) ++ [2000 / 2 ^ 15]).drop
    ((List.replicate 14 (0 : ℝ) ++ [2000 / 2 ^ 15]).length - 10))) (1 / 1000000) =
    2000 / 2 ^ 15
  have hlen : (List.replicate 14 (0 : ℝ) ++ [2000 / 2 ^ 15]).length = 15 := by simp
  rw [hlen]
  have hdrop : (List.replicate 14 (0 : ℝ) ++ [2000 / 2 ^ 15]).drop (15 - 10) =
      List.replicate 9 (0 : ℝ) ++ [2000 / 2 ^ 15] := by
    rw [List.drop_append_of_le_length (by simp)]
    rw [List.drop_replicate]
  rw [hdrop]
  have hmean : listMean (List.replicate 9 (0 : ℝ) ++ [2000 / 2 ^ 15]) =
      (2000 / 2 ^ 15) / 10 := by
    unfold listMean
    rw [List.sum_append, List.sum_replicate]
    simp
  rw [hmean]
  rw [max_eq_left (by norm_num)]
  norm_num

/-- C5 counterexample: the noise floor is NOT computed from the last ten
windows.  On the 16-sample 1 kHz buffer whose only non-silent window is the
final one (window 14), the code's slice `rms[-10:-1]` misses that window
entirely (it averages the NINE windows 5..13, all silent), giving the fixed
floor `10^(-6)`, while the claim's last-ten-window formula would give
`2000/2^15`. -/
theorem claim_C5_counterexample :
    tailNoiseFloor ⟨List.replicate 14 (0 : ℝ) ++ [2000, 0], 1000, 2⟩ = 1 / 1000000 ∧
    tailNoiseFloorSpecTen ⟨List.replicate 14 (0 : ℝ) ++ [2000, 0], 1000, 2⟩ =
      2000 / 2 ^ 15 ∧
    tailNoiseFloor ⟨List.replicate 14 (0 : ℝ) ++ [2000, 0], 1000, 2⟩ ≠
      tailNoiseFloorSpecTen ⟨List.replicate 14 (0 : ℝ) ++ [2000, 0], 1000, 2⟩ := by
  refine ⟨tailNoiseFloor_bc5, tailNoiseFloorSpecTen_bc5, ?_⟩
  rw [tailNoiseFloor_bc5, tailNoiseFloorSpecTen_bc5]
  norm_num

/-- C5 (amended): the noise floor equals the maximum of the fixed floor
`10^(-6)` and ten times the mean RMS of the NINE windows from the tenth-last
through the second-last - the final window is excluded from the average
(Python `rms[-10:-1]`), it is not the mean of the last ten windows. -/
theorem claim_C5 (s : Seg) (h10 : 10 ≤ (tailRMSList s).length) :
    tailNoiseFloor s = tailNoiseFloorSpecNine s := by
  unfold tailNoiseFloor tailNoiseFloorSpecNine
  have h1 : pyIndex (tailRMSList s).length (-1) = (tailRMSList s).length - 1 := by
    unfold pyIndex
    rw [if_pos (by norm_num)]
    norm_num
  have h10' : pyIndex (tailRMSList s).length (-10) = (tailRMSList s).length - 10 := by
    unfold pyIndex
    rw [if_pos (by norm_num)]
    norm_num
    rfl
  have hslice : pySliceL (tailRMSList s) (-10) (-1) =
      (tailRMSList s).dropLast.drop ((tailRMSList s).length - 10) := by
    unfold pySliceL
    rw [h1, h10', List.dropLast_eq_take]
  rw [hslice, mul_comm]


/-- C5 witness for the amended claim, at a 12-sample all-zero 1 kHz buffer
(11 RMS windows). -/
theorem claim_C5_witness :
    10 ≤ (tailRMSList ⟨List.replicate 12 (0 : ℝ), 1000, 2⟩).length ∧
    tailNoiseFloor ⟨List.replicate 12 (0 : ℝ), 1000, 2⟩ =
      tailNoiseFloorSpecNine ⟨List.replicate 12 (0 : ℝ), 1000, 2⟩ := by
  have hlen : 10 ≤ (tailRMSList ⟨List.replicate 12 (0 : ℝ), 1000, 2⟩).length := by
    rw [tailRMSList_replicate_zero]
    simp
  exact ⟨hlen, claim_C5 _ hlen⟩

/-- C9: the packing step.  For every list of 14 cropped buffers, pad every
buffer with `zero_pad` to the Python `max` of the pre-padding lengths: then
every padded buffer has exactly that maximal length, its original samples are
unchanged, and every appended sample is the numeric zero of its
representation. -/
theorem claim_C9 (cropped : List Seg) (fs : ℕ) (max_samples : ℕ)
    (h14 : cropped.length = 14)
    (hmax : pyMax (cropped.map (fun s => s.samples.length)) = .ok max_samples) :
    ∀ s ∈ cropped,
      (zero_pad s max_samples fs).samples.length = max_samples ∧
      (zero_pad s max_samples fs).samples.take s.samples.length = s.samples ∧
      (zero_pad s max_samples fs).samples.drop s.samples.length =
        List.replicate (max_samples - s.samples.length) 0 := by
  intro s hs
  have hle : s.samples.length ≤ max_samples :=
    pyMax_ok_le _ _ hmax s.samples.length (List.mem_map.2 ⟨s, hs, rfl⟩)
  refine ⟨?_, ?_, ?_⟩
  · simp [zero_pad]
    omega
  · simp [zero_pad, List.take_left]
  · simp [zero_pad, List.drop_left]


/-- C9 witness: a concrete 14-buffer packing, checked on the second buffer. -/
theorem claim_C9_witness :
    (zero_pad ⟨[(5 : ℝ)], 1000, 2⟩ 3 1000).samples.length = 3 ∧
    (zero_pad ⟨[(5 : ℝ)], 1000, 2⟩ 3 1000).samples.take 1 = [(5 : ℝ)] ∧
    (zero_pad ⟨[(5 : ℝ)], 1000, 2⟩ 3 1000).samples.drop 1 = List.replicate 2 0 := by
  have h := claim_C9
    (⟨[(5 : ℝ), 6, 7], 1000, 2⟩ :: ⟨[(5 : ℝ)], 1000, 2⟩ :: List.replicate 12 ⟨[], 1000, 2⟩)
    1000 3 (by simp) rfl ⟨[(5 : ℝ)], 1000, 2⟩ (by simp)
  exact h

theorem pydubRMS_replicate_zero (n fsv w : ℕ) :
    pydubRMS ⟨List.replicate n (0 : ℝ), fsv, w⟩ = 0 := by
  unfold pydubRMS
  by_cases hn : n = 0
  · subst hn
    simp
  · rw [if_neg (by simp [List.isEmpty_iff, hn])]
    have : ((List.replicate n (0 : ℝ)).map (fun v => v ^ 2)).sum = 0 := by
      simp
    rw [this, zero_div, Real.sqrt_zero]
    simp

theorem pydubRMS_replicate_const (n fsv w : ℕ) (c : ℝ) (hn : 0 < n) (hc : 0 ≤ c) :
    pydubRMS ⟨List.replicate n c, fsv, w⟩ = ⌊c⌋ := by
  unfold pydubRMS
  rw [if_neg (by simp [List.isEmpty_iff]; omega)]
  have hmap : (List.replicate n c).map (fun v => v ^ 2) = List.replicate n (c ^ 2) := by
    simp
  have hsum : ((List.replicate n c).map (fun v => v ^ 2)).sum = n * c ^ 2 := by
    rw [hmap, List.sum_replicate]
    simp [nsmul_eq_mul]
  rw [hsum]
  have hlen : ((List.replicate n c).length : ℝ) = (n : ℝ) := by simp
  rw [hlen]
  have hne : (n : ℝ) ≠ 0 := by positivity
  have : (n : ℝ) * c ^ 2 / (n : ℝ) = c ^ 2 := by field_simp
  rw [this, Real.sqrt_sq hc]

theorem processLoop_stop (resp : List Seg) (i : ℕ) (h : resp.length ≤ i) :
    processLoop resp i = .ok [] := by
  rw [processLoop]
  rw [dif_neg (by omega)]
  rfl

theorem processLoop_quiet (resp : List Seg) (i : ℕ) (l r : Seg)
    (hl : resp.get? i = some l) (hr : resp.get? (i + 1) = some r)
    (hq : ¬(pydubRMS l > 2 ∧ pydubRMS r > 2)) :
    processLoop resp i = (processLoop resp (i + 2)).map
      (fun rest => pySliceToMs l 1 :: pySliceToMs r 1 :: rest) := by
  have hi : i < resp.length := by
    rcases List.get?_eq_some.1 hl with ⟨h, -⟩
    exact h
  rw [processLoop]
  rw [dif_pos hi]
  simp only [getE, hl, hr]
  simp only [bind, Except.bind]
  rw [if_neg hq]
  cases h2 : processLoop resp (i + 2) with
  | ok rest =>
    simp [Except.map, bind, Except.bind, h2]
    rfl
  | error e => simp [Except.map, bind, Except.bind, h2]

theorem processLoop_loud (resp : List Seg) (i : ℕ) (l r : Seg) (sp : Speaker)
    (hl : resp.get? i = some l) (hr : resp.get? (i + 1) = some r)
    (hsp : CHANNELS.get? (i / 2) = some sp)
    (hql : pydubRMS l > 2) (hqr : pydubRMS r > 2) :
    processLoop resp i = (do
      let pair ← crop_ir_head (crop_ir_tail l) (crop_ir_tail r) sp
      let rest ← processLoop resp (i + 2)
      pure (pair.1 :: pair.2 :: rest) : Except PyErr (List Seg)) := by
  have hi : i < resp.length := by
    rcases List.get?_eq_some.1 hl with ⟨h, -⟩
    exact h
  rw [processLoop]
  rw [dif_pos hi]
  simp only [getE, hl, hr, hsp]
  simp only [bind, Except.bind]
  rw [if_pos ⟨hql, hqr⟩]

/-- C7 (amended): one pass of the post-processing crop loop.  The channel
pair is tail-cropped and head-aligned only when BOTH ears have `rms > 2`;
when EITHER ear is at or below the threshold the pair is bypassed and
replaced by the one-millisecond placeholders `left[:1]`, `right[:1]` (which
hold `frame_rate // 1000` samples each, not a single sample).  (The claim as
frozen - bypass only when both ears are quiet, single-sample placeholders -
fails on a pair with one loud and one silent ear; see the counterexample.) -/
theorem claim_C7 (resp : List Seg) (i : ℕ) (l r : Seg) (sp : Speaker)
    (hl : resp.get? i = some l) (hr : resp.get? (i + 1) = some r)
    (hsp : CHANNELS.get? (i / 2) = some sp) :
    (¬(pydubRMS l > 2 ∧ pydubRMS r > 2) →
      processLoop resp i = (processLoop resp (i + 2)).map
        (fun rest => pySliceToMs l 1 :: pySliceToMs r 1 :: rest)) ∧
    (pydubRMS l > 2 → pydubRMS r > 2 →
      processLoop resp i = (do
        let pair ← crop_ir_head (crop_ir_tail l) (crop_ir_tail r) sp
        let rest ← processLoop resp (i + 2)
        pure (pair.1 :: pair.2 :: rest) : Except PyErr (List Seg))) ∧
    (1 ≤ pylen l →
      (pySliceToMs l 1).samples.length = min (l.fs / 1000) l.samples.length) := by
  refine ⟨fun hq => processLoop_quiet resp i l r hl hr hq,
    fun hql hqr => processLoop_loud resp i l r sp hl hr hsp hql hqr, fun h1 => ?_⟩
  simp only [pySliceToMs, segParse]
  have hmin : min (1 : ℚ) ((pylen l : ℤ) : ℚ) = (1 : ℚ) := by
    apply min_eq_left
    exact_mod_cast h1
  rw [hmin]
  rw [if_neg (by norm_num)]
  have htr : pyTrunc ((1 : ℚ) * l.fs / 1000) = ((l.fs / 1000 : ℕ) : ℤ) := by
    unfold pyTrunc
    rw [if_neg (not_lt.2 (by positivity))]
    rw [one_mul]
    exact_mod_cast Rat.floor_natCast_div_natCast l.fs 1000
  rw [htr]
  unfold pySliceL
  rw [pyIndex_zero, List.drop_zero, List.length_take]
  unfold pyIndex
  rw [if_neg (not_lt.2 (by positivity))]
  rw [Int.toNat_natCast]
  by_cases hc : l.fs / 1000 ≤ l.samples.length
  · rw [min_eq_left hc, min_eq_left hc]
  · rw [min_eq_right (by omega), min_eq_right (by omega)]

theorem pySliceToMs_one_96 (c : ℝ) :
    pySliceToMs ⟨List.replicate 96 c, 48000, 2⟩ 1 = ⟨List.replicate 48 c, 48000, 2⟩ := by
  have hc1 : ((1 : ℤ) : ℚ) = (1 : ℚ) := by norm_num
  rw [← hc1]
  have h := pySliceToMs_intCast ⟨List.replicate 96 c, 48000, 2⟩ 48 2 1
    (by norm_num) (by norm_num) (by simp) (by norm_num) (by norm_num)
  have h' : (pySliceToMs ⟨List.replicate 96 c, 48000, 2⟩ ((1 : ℤ) : ℚ)).samples =
      List.replicate 48 c := by
    rw [h]
    rfl
  exact congrArg (fun t => Seg.mk t 48000 2) h' 

/-- C7 counterexample: a channel pair at 48 kHz whose left ear is loud
(`rms = 100 > 2`) and whose right ear is silent.  The claim says such a pair
(at least one ear above the threshold) is tail-cropped and head-aligned; the
code instead takes the placeholder branch, emitting the raw 1 ms prefixes -
48 samples each, not single-sample placeholders. -/
theorem claim_C7_counterexample :
    pydubRMS ⟨List.replicate 96 (100 : ℝ), 48000, 2⟩ > 2 ∧
    processLoop [⟨List.replicate 96 (100 : ℝ), 48000, 2⟩,
        ⟨List.replicate 96 (0 : ℝ), 48000, 2⟩] 0 =
      .ok [⟨List.replicate 48 (100 : ℝ), 48000, 2⟩, ⟨List.replicate 48 (0 : ℝ), 48000, 2⟩] ∧
    (List.replicate 48 (100 : ℝ)).length ≠ 1 := by
  have hrmsl : pydubRMS ⟨List.replicate 96 (100 : ℝ), 48000, 2⟩ = 100 := by
    rw [pydubRMS_replicate_const 96 48000 2 100 (by norm_num) (by norm_num)]
    norm_num
  have hrmsr : pydubRMS ⟨List.replicate 96 (0 : ℝ), 48000, 2⟩ = 0 :=
    pydubRMS_replicate_zero 96 48000 2
  refine ⟨by rw [hrmsl]; norm_num, ?_, by simp⟩
  rw [processLoop_quiet
    [⟨List.replicate 96 (100 : ℝ), 48000, 2⟩, ⟨List.replicate 96 (0 : ℝ), 48000, 2⟩] 0
    ⟨List.replicate 96 (100 : ℝ), 48000, 2⟩ ⟨List.replicate 96 (0 : ℝ), 48000, 2⟩
    rfl rfl (by rw [hrmsl, hrmsr]; norm_num)]
  rw [processLoop_stop _ 2 (by simp)]
  rw [pySliceToMs_one_96, pySliceToMs_one_96]
  rfl


/-- C7 witness for the amended claim: an all-silent pair at 1 kHz is bypassed
and replaced by the 1-sample (= 1000/1000 frames) placeholders. -/
theorem claim_C7_witness :
    processLoop [⟨List.replicate 2 (0 : ℝ), 1000, 2⟩, ⟨List.replicate 2 (0 : ℝ), 1000, 2⟩] 0 =
      .ok [pySliceToMs ⟨List.replicate 2 (0 : ℝ), 1000, 2⟩ 1,
        pySliceToMs ⟨List.replicate 2 (0 : ℝ), 1000, 2⟩ 1] ∧
    (pySliceToMs ⟨List.replicate 2 (0 : ℝ), 1000, 2⟩ 1).samples.length = 1 := by
  have h := claim_C7 [⟨List.replicate 2 (0 : ℝ), 1000, 2⟩, ⟨List.replicate 2 (0 : ℝ), 1000, 2⟩]
    0 ⟨List.replicate 2 (0 : ℝ), 1000, 2⟩ ⟨List.replicate 2 (0 : ℝ), 1000, 2⟩ .FL rfl rfl rfl
  have hrms : pydubRMS ⟨List.replicate 2 (0 : ℝ), 1000, 2⟩ = 0 :=
    pydubRMS_replicate_zero 2 1000 2
  have hpl : pylen ⟨List.replicate 2 (0 : ℝ), 1000, 2⟩ = 2 :=
    pylen_aligned _ 1 2 (by norm_num) one_pos (by simp)
  constructor
  · rw [h.1 (by rw [hrms]; norm_num)]
    rw [processLoop_stop _ 2 (by simp)]
    rfl
  · rw [h.2.2 (by rw [hpl]; norm_num)]
    simp

theorem headroomFactor_pos : 0 < headroomFactor :=
  Real.rpow_pos_of_pos (by norm_num) _

theorem headroomFactor_le_one : headroomFactor ≤ 1 :=
  Real.rpow_le_one_of_one_le_of_nonpos (by norm_num) (by norm_num)

theorem headroomFactor_ge_tenth : (1 / 10 : ℝ) ≤ headroomFactor := by
  have h1 : (10 : ℝ) ^ (-1 : ℝ) ≤ (10 : ℝ) ^ ((-1 : ℝ) / 200) :=
    (Real.rpow_le_rpow_left_iff (by norm_num)).2 (by norm_num)
  rw [Real.rpow_neg_one] at h1
  calc (1 / 10 : ℝ) = (10 : ℝ)⁻¹ := by norm_num
    _ ≤ headroomFactor := h1

theorem getD_map_mul (l : List ℝ) (c : ℝ) (i : ℕ) :
    (l.map (fun v => v * c)).getD i 0 = l.getD i 0 * c := by
  by_cases h : i < l.length
  · rw [List.getD_eq_getElem _ _ (by simpa using h), List.getD_eq_getElem _ _ h]
    simp
  · rw [List.getD_eq_default _ _ (by simpa using not_lt.1 h),
      List.getD_eq_default _ _ (not_lt.1 h)]
    ring

theorem plateauEnd_map_mul (l : List ℝ) (c : ℝ) (hc : 0 < c) (imax : ℕ) (v : ℝ) :
    ∀ fuel i, plateauEnd (l.map (fun x => x * c)) imax (v * c) fuel i =
      plateauEnd l imax v fuel i := by
  intro fuel
  induction fuel with
  | zero => intro i; rfl
  | succ m ih =>
    intro i
    rw [plateauEnd, plateauEnd]
    rw [getD_map_mul]
    have heq : (l.getD i 0 * c = v * c) ↔ (l.getD i 0 = v) :=
      mul_left_inj' (ne_of_gt hc)
    by_cases h : i < imax ∧ l.getD i 0 = v
    · rw [if_pos ⟨h.1, heq.2 h.2⟩, if_pos h, ih]
    · rw [if_neg (fun hcon => h ⟨hcon.1, heq.1 hcon.2⟩), if_neg h]

theorem lmScan_map_mul (l : List ℝ) (c : ℝ) (hc : 0 < c) (imax : ℕ) :
    ∀ fuel i, lmScan (l.map (fun x => x * c)) imax fuel i = lmScan l imax fuel i := by
  intro fuel
  induction fuel with
  | zero => intro i; rfl
  | succ m ih =>
    intro i
    rw [lmScan, lmScan]
    by_cases h1 : i < imax
    · rw [if_pos h1, if_pos h1]
      rw [getD_map_mul, getD_map_mul]
      by_cases h2 : l.getD (i - 1) 0 < l.getD i 0
      · rw [if_pos ((mul_lt_mul_right hc).2 h2), if_pos h2]
        rw [List.length_map]
        rw [plateauEnd_map_mul l c hc]
        simp only []
        rw [getD_map_mul]
        by_cases h3 : l.getD (plateauEnd l imax (l.getD i 0) l.length (i + 1)) 0 < l.getD i 0
        · rw [if_pos ((mul_lt_mul_right hc).2 h3), if_pos h3, ih]
        · rw [if_neg (fun hcon => h3 ((mul_lt_mul_right hc).1 hcon)), if_neg h3, ih]
      · rw [if_neg (fun hcon => h2 ((mul_lt_mul_right hc).1 hcon)), if_neg h2, ih]
    · rw [if_neg h1, if_neg h1]

theorem localMaxima_map_mul (l : List ℝ) (c : ℝ) (hc : 0 < c) :
    localMaxima (l.map (fun x => x * c)) = localMaxima l := by
  unfold localMaxima
  rw [List.length_map]
  exact lmScan_map_mul l c hc _ _ _

theorem spike_getD_lt (a b j : ℕ) (v : ℝ) (hj : j < a) :
    (List.replicate a (0 : ℝ) ++ v :: List.replicate b 0).getD j 0 = 0 := by
  rw [List.getD_eq_getElem _ 0 (by simp; omega)]
  rw [List.getElem_append_left (by simpa using hj)]
  exact List.getElem_replicate ..

theorem spike_getD_eq (a b : ℕ) (v : ℝ) :
    (List.replicate a (0 : ℝ) ++ v :: List.replicate b 0).getD a 0 = v := by
  rw [List.getD_eq_getElem _ 0 (by simp)]
  rw [List.getElem_append_right (by simp)]
  simp

theorem spike_getD_gt (a b j : ℕ) (v : ℝ) (hj : a < j) :
    (List.replicate a (0 : ℝ) ++ v :: List.replicate b 0).getD j 0 = 0 := by
  rw [List.getD_eq_getElem?_getD]
  rw [List.getElem?_append_right (by simp; omega)]
  have hidx : j - (List.replicate a (0 : ℝ)).length = (j - a - 1) + 1 := by
    simp
    omega
  rw [hidx]
  rw [List.getElem?_cons_succ]
  by_cases hb : j - a - 1 < b
  · rw [List.getElem?_eq_getElem (by simpa using hb)]
    simp
  · rw [List.getElem?_eq_none (by simpa using not_lt.1 hb)]
    rfl

theorem plateauEnd_stop (x : List ℝ) (imax : ℕ) (v : ℝ) (i : ℕ)
    (h : x.getD i 0 ≠ v) : ∀ fuel, plateauEnd x imax v fuel i = i := by
  intro fuel
  cases fuel with
  | zero => rfl
  | succ m =>
    rw [plateauEnd]
    rw [if_neg (fun hc => h hc.2)]

theorem lmScan_zeros (x : List ℝ) (imax : ℕ) :
    ∀ fuel i, 1 ≤ i → (∀ j, i - 1 ≤ j → x.getD j 0 = 0) →
      lmScan x imax fuel i = [] := by
  intro fuel
  induction fuel with
  | zero => intro i _ _; rfl
  | succ m ih =>
    intro i h1 hz
    rw [lmScan]
    by_cases hi : i < imax
    · rw [if_pos hi]
      rw [hz (i - 1) (le_refl _), hz i (by omega)]
      rw [if_neg (lt_irrefl 0)]
      exact ih (i + 1) (by omega) (fun j hj => hz j (by omega))
    · rw [if_neg hi]

theorem lmScan_spike (a b : ℕ) (v : ℝ) (hv : 0 < v) (ha : 1 ≤ a) (hb : 1 ≤ b) :
    ∀ fuel i, 1 ≤ i → i ≤ a → a + 1 + b ≤ fuel + i →
      lmScan (List.replicate a (0 : ℝ) ++ v :: List.replicate b 0) (a + b) fuel i = [a] := by
  intro fuel
  induction fuel with
  | zero =>
    intro i h1 h2 h3
    omega
  | succ m ih =>
    intro i h1 h2 h3
    rw [lmScan]
    rw [if_pos (by omega)]
    by_cases hia : i = a
    · rw [hia]
      rw [spike_getD_lt a b (a - 1) v (by omega), spike_getD_eq a b v]
      rw [if_pos hv]
      have hpe : plateauEnd (List.replicate a (0 : ℝ) ++ v :: List.replicate b 0) (a + b)
          ((List.replicate a (0 : ℝ) ++ v :: List.replicate b 0).getD a 0)
          (List.replicate a (0 : ℝ) ++ v :: List.replicate b 0).length (a + 1) = a + 1 := by
        apply plateauEnd_stop
        rw [spike_getD_eq a b v, spike_getD_gt a b (a + 1) v (by omega)]
        exact ne_of_lt hv
      rw [spike_getD_eq a b v] at hpe
      rw [hpe]
      simp only []
      rw [spike_getD_gt a b (a + 1) v (by omega)]
      rw [if_pos hv]
      have hmid : (a + (a + 1 - 1)) / 2 = a := by omega
      rw [hmid]
      rw [lmScan_zeros _ _ m (a + 1 + 1) (by omega)
        (fun j hj => spike_getD_gt a b j v (by omega))]
    · have hilt : i < a := by omega
      rw [spike_getD_lt a b (i - 1) v (by omega), spike_getD_lt a b i v hilt]
      rw [if_neg (lt_irrefl 0)]
      exact ih (i + 1) (by omega) (by omega) (by omega)

theorem localMaxima_spike (a b : ℕ) (v : ℝ) (hv : 0 < v) (ha : 1 ≤ a) (hb : 1 ≤ b) :
    localMaxima (List.replicate a (0 : ℝ) ++ v :: List.replicate b 0) = [a] := by
  unfold localMaxima
  have hlen : (List.replicate a (0 : ℝ) ++ v :: List.replicate b 0).length = a + 1 + b := by
    simp
    omega
  rw [hlen]
  have himax : a + 1 + b - 1 = a + b := by omega
  rw [himax]
  exact lmScan_spike a b v hv ha hb (a + 1 + b) 1 (le_refl 1) ha (by omega)

theorem foldr_maxabs_replicate_zero (k : ℕ) (z : ℝ) (hz : 0 ≤ z) :
    (List.replicate k (0 : ℝ)).foldr (fun x m => max |x| m) z = z := by
  induction k with
  | zero => rfl
  | succ n ih =>
    rw [List.replicate_succ, List.foldr_cons, ih]
    rw [abs_zero]
    exact max_eq_right hz

theorem maxAbs_spike (a b : ℕ) (v : ℝ) (hv : 0 < v) :
    maxAbsSample (List.replicate a (0 : ℝ) ++ v :: List.replicate b 0) = v := by
  unfold maxAbsSample
  rw [List.foldr_append, List.foldr_cons]
  rw [foldr_maxabs_replicate_zero b 0 (le_refl 0)]
  rw [abs_of_pos hv]
  rw [max_eq_left (le_of_lt hv)]
  exact foldr_maxabs_replicate_zero a v (le_of_lt hv)

theorem onsetPeaks_spike (a b : ℕ) (v : ℝ) (hv : 0 < v) (ha : 1 ≤ a) (hb : 1 ≤ b)
    (fsv : ℕ) :
    onsetPeaks ⟨List.replicate a (0 : ℝ) ++ v :: List.replicate b 0, fsv, 2⟩ = [a] := by
  unfold onsetPeaks pydubNormalize
  rw [maxAbs_spike a b v hv]
  rw [if_neg (ne_of_gt hv)]
  simp only [List.map_map]
  have hcomp : (to_float 2 ∘ fun x : ℝ => x * (maxAmplitude 2 * headroomFactor / v)) =
      fun x : ℝ => x * (headroomFactor / v) := by
    funext x
    rw [Function.comp_apply, to_float_two]
    have hma : maxAmplitude 2 = 2 ^ 15 := by
      unfold maxAmplitude
      norm_num
    rw [hma]
    ring
  rw [hcomp]
  have hc : 0 < headroomFactor / v := div_pos headroomFactor_pos hv
  rw [localMaxima_map_mul _ _ hc]
  rw [localMaxima_spike a b v hv ha hb]
  rw [List.filter_cons]
  rw [getD_map_mul]
  rw [spike_getD_eq a b v]
  have hval : v * (headroomFactor / v) = headroomFactor := by
    field_simp
  rw [hval]
  rw [if_pos (by
    simp [decide_eq_true_eq]
    calc (10 : ℝ)⁻¹ = 1 / 10 := by norm_num
      _ ≤ headroomFactor := headroomFactor_ge_tenth)]
  rfl

/-- C2 (amended): the direction check of `crop_ir_head`.  With an onset found
in each ear, the channel-direction ValueError - which carries the channel
identifier - is raised exactly when the left onset is strictly earlier than
the right onset but the position is a nominal right-side source, or when the
left onset is NOT strictly earlier (equal onsets included) and the position is
a nominal left-side source.  Ties are therefore treated as right-side: a
left-side source with equal ear onsets is rejected, not accepted, which is
where the claim as frozen fails (see the counterexample).  In all other cases
the pair is accepted and cropping succeeds. -/
theorem claim_C2 (left right : Seg) (sp : Speaker) (pl pr : ℕ)
    (hL : (onsetPeaks left).head? = some pl) (hR : (onsetPeaks right).head? = some pr) :
    (crop_ir_head left right sp = .error (.valueErrCh sp) ↔
      (((pl : ℚ) / left.fs * 1000 < (pr : ℚ) / right.fs * 1000) ∧ sideChar sp = 'R') ∨
      (¬((pl : ℚ) / left.fs * 1000 < (pr : ℚ) / right.fs * 1000) ∧ sideChar sp = 'L')) ∧
    ((sideChar sp = 'R' → ¬((pl : ℚ) / left.fs * 1000 < (pr : ℚ) / right.fs * 1000)) →
      (sideChar sp = 'L' → ((pl : ℚ) / left.fs * 1000 < (pr : ℚ) / right.fs * 1000)) →
      ∃ out, crop_ir_head left right sp = .ok out) := by
  unfold crop_ir_head
  simp only [hL, hR]
  by_cases hlt : (pl : ℚ) / left.fs * 1000 < (pr : ℚ) / right.fs * 1000
  · rw [if_pos hlt]
    by_cases hside : sideChar sp = 'R'
    · rw [if_pos hside]
      constructor
      · constructor
        · intro _
          exact Or.inl ⟨hlt, hside⟩
        · intro _
          rfl
      · intro hc _
        exact absurd hlt (hc hside)
    · rw [if_neg hside]
      unfold headFinish
      constructor
      · constructor
        · intro hcon
          cases hcon
        · intro hcon
          rcases hcon with ⟨-, h⟩ | ⟨h, -⟩
          · exact absurd h hside
          · exact absurd hlt h
      · intro _ _
        exact ⟨_, rfl⟩
  · rw [if_neg hlt]
    by_cases hside : sideChar sp = 'L'
    · rw [if_pos hside]
      constructor
      · constructor
        · intro _
          exact Or.inr ⟨hlt, hside⟩
        · intro _
          rfl
      · intro _ hc
        exact absurd (hc hside) hlt
    · rw [if_neg hside]
      unfold headFinish
      constructor
      · constructor
        · intro hcon
          cases hcon
        · intro hcon
          rcases hcon with ⟨h, -⟩ | ⟨-, h⟩
          · exact absurd h hlt
          · exact absurd h hside
      · intro _ _
        exact ⟨_, rfl⟩

/-- C2 counterexample: a nominal left-side source (FL) whose two ears have
EQUAL onset times (the same spike buffer fed to both ears).  The left-ear
onset occurs no later than the right-ear onset, so the claim says the pair is
accepted; the code lands in the `else` branch (which assumes a right-side
speaker), sees `speaker[1] == 'L'` and raises the channel-direction
ValueError. -/
theorem claim_C2_counterexample :
    (onsetPeaks ⟨List.replicate 1 (0 : ℝ) ++ (5000 : ℝ) :: List.replicate 2 0,
      1000, 2⟩).head? = some 1 ∧
    crop_ir_head
      ⟨List.replicate 1 (0 : ℝ) ++ (5000 : ℝ) :: List.replicate 2 0, 1000, 2⟩
      ⟨List.replicate 1 (0 : ℝ) ++ (5000 : ℝ) :: List.replicate 2 0, 1000, 2⟩
      .FL = .error (.valueErrCh .FL) := by
  have h1 : onsetPeaks ⟨List.replicate 1 (0 : ℝ) ++ (5000 : ℝ) :: List.replicate 2 0,
      1000, 2⟩ = [1] :=
    onsetPeaks_spike 1 2 5000 (by norm_num) (le_refl 1) (by norm_num) 1000
  refine ⟨by rw [h1]; rfl, ?_⟩
  unfold crop_ir_head
  simp only [h1, List.head?_cons]
  rw [if_neg (lt_irrefl _)]
  rw [if_pos (show sideChar Speaker.FL = 'L' from rfl)]

/-- C2 witness for the amended claim: an FL pair whose left-ear onset
(sample 1) is strictly earlier than its right-ear onset (sample 2) passes
the direction check. -/
theorem claim_C2_witness :
    (onsetPeaks ⟨List.replicate 1 (0 : ℝ) ++ (5000 : ℝ) :: List.replicate 2 0,
      1000, 2⟩).head? = some 1 ∧
    (onsetPeaks ⟨List.replicate 2 (0 : ℝ) ++ (5000 : ℝ) :: List.replicate 1 0,
      1000, 2⟩).head? = some 2 ∧
    crop_ir_head
      ⟨List.replicate 1 (0 : ℝ) ++ (5000 : ℝ) :: List.replicate 2 0, 1000, 2⟩
      ⟨List.replicate 2 (0 : ℝ) ++ (5000 : ℝ) :: List.replicate 1 0, 1000, 2⟩
      .FL ≠ .error (.valueErrCh .FL) := by
  have h1 : onsetPeaks ⟨List.replicate 1 (0 : ℝ) ++ (5000 : ℝ) :: List.replicate 2 0,
      1000, 2⟩ = [1] :=
    onsetPeaks_spike 1 2 5000 (by norm_num) (le_refl 1) (by norm_num) 1000
  have h2 : onsetPeaks ⟨List.replicate 2 (0 : ℝ) ++ (5000 : ℝ) :: List.replicate 1 0,
      1000, 2⟩ = [2] :=
    onsetPeaks_spike 2 1 5000 (by norm_num) (by norm_num) (le_refl 1) 1000
  have h := claim_C2
    ⟨List.replicate 1 (0 : ℝ) ++ (5000 : ℝ) :: List.replicate 2 0, 1000, 2⟩
    ⟨List.replicate 2 (0 : ℝ) ++ (5000 : ℝ) :: List.replicate 1 0, 1000, 2⟩
    .FL 1 2 (by rw [h1]; rfl) (by rw [h2]; rfl)
  refine ⟨by rw [h1]; rfl, by rw [h2]; rfl, ?_⟩
  intro hcon
  rcases h.1.mp hcon with ⟨-, hs⟩ | ⟨hn, -⟩
  · exact absurd hs (by decide)
  · apply hn
    norm_num

theorem pydubFadeIn_call (s : Seg) : pydubFadeIn s (2 / s.fs / 1000) = s := by
  have hff : pyTrunc (2 / s.fs / 1000 * s.fs / 1000) = 0 := by
    by_cases hfs : (s.fs : ℚ) = 0
    · rw [hfs]
      norm_num [pyTrunc]
    · have : (2 / s.fs / 1000 * s.fs / 1000 : ℚ) = 2 / 1000000 := by
        field_simp
        ring
      rw [this]
      unfold pyTrunc
      rw [if_neg (by norm_num)]
      rw [Int.floor_eq_zero_iff]
      rw [Set.mem_Ico]
      constructor <;> norm_num
  simp only [pydubFadeIn, hff, Int.toNat_zero, List.range_zero, List.map_nil,
    List.nil_append, List.drop_zero]

theorem pySliceToMs_get (s : Seg) (e : ℚ) (i : ℕ)
    (hi : i < (pySliceToMs s e).samples.length) :
    (pySliceToMs s e).samples.get? i = s.samples.get? i := by
  unfold pySliceToMs pySliceL at hi ⊢
  rw [pyIndex_zero, List.drop_zero] at hi ⊢
  apply List.get?_take
  rw [List.length_take] at hi
  omega

theorem pySliceFromMs_get (s : Seg) (ms : ℚ) (h0 : 0 ≤ ms)
    (hle : ms ≤ ((pylen s : ℤ) : ℚ)) (i : ℕ)
    (hi : i < (pySliceFromMs s ms).samples.length) :
    (pySliceFromMs s ms).samples.get? i =
      s.samples.get? ((pyTrunc (ms * s.fs / 1000)).toNat + i) := by
  have hparse : segParse s ms = pyTrunc (ms * s.fs / 1000) := by
    simp only [segParse]
    rw [min_eq_left hle, if_neg (not_lt.2 h0)]
  unfold pySliceFromMs pySliceL at hi ⊢
  rw [hparse] at hi ⊢
  set cut := pyTrunc (ms * s.fs / 1000) with hcutdef
  have hcutnn : 0 ≤ cut := by
    rw [hcutdef]
    unfold pyTrunc
    rw [if_neg (not_lt.2 (by positivity))]
    positivity
  have hpi : pyIndex s.samples.length cut = min cut.toNat s.samples.length := by
    unfold pyIndex
    rw [if_neg (not_lt.2 hcutnn)]
  rw [hpi] at hi ⊢
  rw [List.length_drop, List.length_take] at hi
  by_cases hc : cut.toNat ≤ s.samples.length
  · rw [min_eq_left hc] at hi ⊢
    rw [List.get?_drop]
    apply List.get?_take
    omega
  · rw [min_eq_right (by omega)] at hi
    omega

theorem headChain_get (s : Seg) (ms : ℚ) (h0 : 0 ≤ ms)
    (hle : ms ≤ ((pylen s : ℤ) : ℚ)) (e : ℚ) (i : ℕ)
    (hi : i < (pySliceToMs (pySliceFromMs s ms) e).samples.length) :
    (pySliceToMs (pySliceFromMs s ms) e).samples.get? i =
      s.samples.get? ((pyTrunc (ms * s.fs / 1000)).toNat + i) := by
  rw [pySliceToMs_get _ _ i hi]
  apply pySliceFromMs_get s ms h0 hle i
  have := pySliceToMs_length_le (pySliceFromMs s ms) e
  omega

theorem headFinish_eval (l r a b : Seg)
    (hel : pySliceToMs l (((pyTrunc ((pylen l : ℤ) / 1000 * l.fs : ℚ) - 1 : ℤ) : ℚ) / l.fs * 1000) = a)
    (her : pySliceToMs r (((pyTrunc ((pylen r : ℤ) / 1000 * r.fs : ℚ) - 1 : ℤ) : ℚ) / r.fs * 1000) = b) :
    headFinish l r = .ok (a, b) := by
  simp only [headFinish]
  rw [pydubFadeIn_call l, pydubFadeIn_call r, hel, her]

/-- C1 (amended): head cropping anchors both ears one sample from the
configured delay, PROVIDED the configured delay does not exceed either
detected onset time (`0 ≤ cutMs`; the claim as frozen omits this and fails
when an onset lies within the configured delay of the buffer start, because
pydub resolves the negative slice position from the END of the buffer - see
the counterexample).  Both ears are cut by the same whole number of frames
`cutN = int((min onset - delay) * fs / 1000)`; every sample of each output is
the corresponding input sample shifted by `cutN`, so the near ear's onset
lands within one sample of the configured delay and the far ear's within one
sample of delay + ITD. -/
theorem claim_C1 (left right : Seg) (sp : Speaker) (pl pr : ℕ) (l2 r2 : Seg)
    (fsv : ℕ) (cutMs : ℚ) (cutN : ℕ)
    (hfsL : left.fs = fsv) (hfsR : right.fs = fsv) (hfs : 0 < fsv)
    (hL : (onsetPeaks left).head? = some pl) (hR : (onsetPeaks right).head? = some pr)
    (hok : crop_ir_head left right sp = .ok (l2, r2))
    (hcutMs : cutMs = min ((pl : ℚ) / fsv * 1000) ((pr : ℚ) / fsv * 1000) - DELAYS sp)
    (hcutN : cutN = (pyTrunc (cutMs * fsv / 1000)).toNat)
    (hd : 0 ≤ cutMs)
    (hclL : cutMs ≤ ((pylen left : ℤ) : ℚ))
    (hclR : cutMs ≤ ((pylen right : ℤ) : ℚ)) :
    |((pl : ℚ) - cutN) * 1000 / fsv -
        (DELAYS sp + ((pl : ℚ) / fsv * 1000 -
          min ((pl : ℚ) / fsv * 1000) ((pr : ℚ) / fsv * 1000)))| < 1000 / fsv ∧
    |((pr : ℚ) - cutN) * 1000 / fsv -
        (DELAYS sp + ((pr : ℚ) / fsv * 1000 -
          min ((pl : ℚ) / fsv * 1000) ((pr : ℚ) / fsv * 1000)))| < 1000 / fsv ∧
    (∀ i, i < l2.samples.length → l2.samples.get? i = left.samples.get? (cutN + i)) ∧
    (∀ i, i < r2.samples.length → r2.samples.get? i = right.samples.get? (cutN + i)) := by
  have hfsq : (0 : ℚ) < (fsv : ℚ) := by exact_mod_cast hfs
  have htnn : 0 ≤ cutMs * fsv / 1000 := by positivity
  have htrunc : pyTrunc (cutMs * fsv / 1000) = ⌊cutMs * fsv / 1000⌋ := by
    unfold pyTrunc
    rw [if_neg (not_lt.2 htnn)]
  have hfl0 : 0 ≤ ⌊cutMs * fsv / 1000⌋ := Int.floor_nonneg.2 htnn
  have hcast : (cutN : ℚ) = ((⌊cutMs * fsv / 1000⌋ : ℤ) : ℚ) := by
    rw [hcutN, htrunc]
    exact_mod_cast Int.toNat_of_nonneg hfl0
  have hfsne : (fsv : ℚ) ≠ 0 := ne_of_gt hfsq
  have hbound : |(cutN : ℚ) * 1000 / fsv - cutMs| < 1000 / fsv := by
    have hkey : (cutN : ℚ) * 1000 / fsv - cutMs =
        (((⌊cutMs * fsv / 1000⌋ : ℤ) : ℚ) - cutMs * fsv / 1000) * (1000 / fsv) := by
      rw [hcast]
      field_simp
      ring
    rw [hkey, abs_mul, abs_of_pos (by positivity : (0 : ℚ) < 1000 / fsv)]
    have habs : |((⌊cutMs * fsv / 1000⌋ : ℤ) : ℚ) - cutMs * fsv / 1000| < 1 := by
      rw [abs_lt]
      constructor
      · linarith [Int.lt_floor_add_one (cutMs * fsv / 1000)]
      · linarith [Int.floor_le (cutMs * fsv / 1000)]
    calc |((⌊cutMs * fsv / 1000⌋ : ℤ) : ℚ) - cutMs * fsv / 1000| * (1000 / fsv)
        < 1 * (1000 / fsv) := mul_lt_mul_of_pos_right habs (by positivity)
      _ = 1000 / fsv := one_mul _
  have e1 : ((pl : ℚ) - cutN) * 1000 / fsv -
      (DELAYS sp + ((pl : ℚ) / fsv * 1000 -
        min ((pl : ℚ) / fsv * 1000) ((pr : ℚ) / fsv * 1000))) =
      -((cutN : ℚ) * 1000 / fsv - cutMs) := by
    rw [hcutMs]
    ring
  have e2 : ((pr : ℚ) - cutN) * 1000 / fsv -
      (DELAYS sp + ((pr : ℚ) / fsv * 1000 -
        min ((pl : ℚ) / fsv * 1000) ((pr : ℚ) / fsv * 1000))) =
      -((cutN : ℚ) * 1000 / fsv - cutMs) := by
    rw [hcutMs]
    ring
  refine ⟨by rw [e1, abs_neg]; exact hbound, by rw [e2, abs_neg]; exact hbound, ?_, ?_⟩
  all_goals {
    unfold crop_ir_head at hok
    simp only [hL, hR, List.head?_cons] at hok
    rw [hfsL, hfsR] at hok
    by_cases hlt : (pl : ℚ) / fsv * 1000 < (pr : ℚ) / fsv * 1000
    · rw [if_pos hlt] at hok
      by_cases hside : sideChar sp = 'R'
      · rw [if_pos hside] at hok
        cases hok
      · rw [if_neg hside] at hok
        unfold headFinish at hok
        rw [Except.ok.injEq, Prod.mk.injEq] at hok
        obtain ⟨hl2, hr2⟩ := hok
        have hminl : min ((pl : ℚ) / fsv * 1000) ((pr : ℚ) / fsv * 1000) =
            (pl : ℚ) / fsv * 1000 := min_eq_left (le_of_lt hlt)
        have hsl : (pl : ℚ) / fsv * 1000 - DELAYS sp = cutMs := by
          rw [hcutMs, hminl]
        have hsr : (pr : ℚ) / fsv * 1000 -
            (DELAYS sp + |(pl : ℚ) / fsv * 1000 - (pr : ℚ) / fsv * 1000|) = cutMs := by
          rw [hcutMs, hminl, abs_of_neg (by linarith)]
          ring
        rw [hsl] at hl2
        rw [hsr] at hr2
        first
        | (intro i hi
           rw [← hl2] at hi ⊢
           rw [pydubFadeIn_call] at hi ⊢
           rw [headChain_get left cutMs hd hclL _ i hi]
           rw [hfsL, hcutN])
        | (intro i hi
           rw [← hr2] at hi ⊢
           rw [pydubFadeIn_call] at hi ⊢
           rw [headChain_get right cutMs hd hclR _ i hi]
           rw [hfsR, hcutN])
    · rw [if_neg hlt] at hok
      by_cases hside : sideChar sp = 'L'
      · rw [if_pos hside] at hok
        cases hok
      · rw [if_neg hside] at hok
        unfold headFinish at hok
        rw [Except.ok.injEq, Prod.mk.injEq] at hok
        obtain ⟨hl2, hr2⟩ := hok
        have hminr : min ((pl : ℚ) / fsv * 1000) ((pr : ℚ) / fsv * 1000) =
            (pr : ℚ) / fsv * 1000 := min_eq_right (not_lt.1 hlt)
        have hsl : (pl : ℚ) / fsv * 1000 -
            (DELAYS sp + |(pl : ℚ) / fsv * 1000 - (pr : ℚ) / fsv * 1000|) = cutMs := by
          rw [hcutMs, hminr, abs_of_nonneg (by linarith [not_lt.1 hlt])]
          ring
        have hsr : (pr : ℚ) / fsv * 1000 - DELAYS sp = cutMs := by
          rw [hcutMs, hminr]
        rw [hsl] at hl2
        rw [hsr] at hr2
        first
        | (intro i hi
           rw [← hl2] at hi ⊢
           rw [pydubFadeIn_call] at hi ⊢
           rw [headChain_get left cutMs hd hclL _ i hi]
           rw [hfsL, hcutN])
        | (intro i hi
           rw [← hr2] at hi ⊢
           rw [pydubFadeIn_call] at hi ⊢
           rw [headChain_get right cutMs hd hclR _ i hi]
           rw [hfsR, hcutN])
  }

/-- C1 counterexample: an FL pair at 8 kHz whose left onset (sample 1, i.e.
0.125 ms) is EARLIER than the configured delay 0.1487 ms.  Both ears are
above threshold, peaks are found, the direction check passes and
`crop_ir_head` returns successfully - but the slice positions
`peak - delay` are negative, pydub resolves them from the END of the buffer,
and both output ears come back EMPTY: no onset lands at the configured delay
(there is no onset at all), so the claimed head-alignment invariant fails. -/
theorem claim_C1_counterexample :
    (onsetPeaks ⟨List.replicate 1 (0 : ℝ) ++ (30000 : ℝ) :: List.replicate 6 0,
      8000, 2⟩).head? = some 1 ∧
    (onsetPeaks ⟨List.replicate 2 (0 : ℝ) ++ (30000 : ℝ) :: List.replicate 5 0,
      8000, 2⟩).head? = some 2 ∧
    ((1 : ℚ) / 8000 * 1000 < DELAYS Speaker.FL) ∧
    crop_ir_head
      ⟨List.replicate 1 (0 : ℝ) ++ (30000 : ℝ) :: List.replicate 6 0, 8000, 2⟩
      ⟨List.replicate 2 (0 : ℝ) ++ (30000 : ℝ) :: List.replicate 5 0, 8000, 2⟩
      .FL = .ok (⟨[], 8000, 2⟩, ⟨[], 8000, 2⟩) ∧
    onsetPeaks ⟨([] : List ℝ), 8000, 2⟩ = [] := by
  have h1 : onsetPeaks ⟨List.replicate 1 (0 : ℝ) ++ (30000 : ℝ) :: List.replicate 6 0,
      8000, 2⟩ = [1] :=
    onsetPeaks_spike 1 6 30000 (by norm_num) (by norm_num) (by norm_num) 8000
  have h2 : onsetPeaks ⟨List.replicate 2 (0 : ℝ) ++ (30000 : ℝ) :: List.replicate 5 0,
      8000, 2⟩ = [2] :=
    onsetPeaks_spike 2 5 30000 (by norm_num) (by norm_num) (by norm_num) 8000
  refine ⟨by rw [h1]; rfl, by rw [h2]; rfl, by norm_num [DELAYS], ?_, ?_⟩
  · unfold crop_ir_head
    simp only [h1, h2, List.head?_cons]
    rw [if_pos (by norm_num), if_neg (by decide)]
    have habs : |(237 / 10000 : ℚ)| = 237 / 10000 := abs_of_pos (by norm_num)
    have habs2 : ((1 : ℚ) - 237 / 10000) * 8000 / 1000 = 78104 / 10000 := by norm_num
    have he1 : pySliceFromMs
        (⟨List.replicate 1 (0:ℝ) ++ (30000:ℝ) :: List.replicate 6 0, 8000, 2⟩ : Seg)
        (((1:ℕ):ℚ) / ((⟨List.replicate 1 (0:ℝ) ++ (30000:ℝ) :: List.replicate 6 0, 8000, 2⟩ : Seg).fs : ℚ) * 1000 - DELAYS Speaker.FL) =
        ⟨[(0:ℝ)], 8000, 2⟩ := by
      norm_num [pySliceFromMs, segParse, pylen, pyRound, pyTrunc, pySliceL, pyIndex, DELAYS,
        habs, habs2]
      rfl
    have habs1 : |(1 / 8 : ℚ)| = 1 / 8 := abs_of_pos (by norm_num)
    have he2 : pySliceFromMs
        (⟨List.replicate 2 (0:ℝ) ++ (30000:ℝ) :: List.replicate 5 0, 8000, 2⟩ : Seg)
        (((2:ℕ):ℚ) / ((⟨List.replicate 2 (0:ℝ) ++ (30000:ℝ) :: List.replicate 5 0, 8000, 2⟩ : Seg).fs : ℚ) * 1000 -
          (DELAYS Speaker.FL +
            |((1:ℕ):ℚ) / ((⟨List.replicate 1 (0:ℝ) ++ (30000:ℝ) :: List.replicate 6 0, 8000, 2⟩ : Seg).fs : ℚ) * 1000 -
              ((2:ℕ):ℚ) / ((⟨List.replicate 2 (0:ℝ) ++ (30000:ℝ) :: List.replicate 5 0, 8000, 2⟩ : Seg).fs : ℚ) * 1000|)) =
        ⟨[(0:ℝ)], 8000, 2⟩ := by
      norm_num [pySliceFromMs, segParse, pylen, pyRound, pyTrunc, pySliceL, pyIndex, DELAYS,
        habs, habs2, habs1]
      rfl
    rw [he1, he2]
    apply headFinish_eval
    · have habs3 : |(1 / 8 : ℚ)| = 1 / 8 := abs_of_pos (by norm_num)
      have habs4 : ((0 : ℚ) - 1 / 8) * 8000 / 1000 = -1 := by norm_num
      norm_num [pySliceToMs, segParse, pylen, pyRound, pyTrunc, pySliceL, pyIndex, habs3, habs4]
    · have habs3 : |(1 / 8 : ℚ)| = 1 / 8 := abs_of_pos (by norm_num)
      have habs4 : ((0 : ℚ) - 1 / 8) * 8000 / 1000 = -1 := by norm_num
      norm_num [pySliceToMs, segParse, pylen, pyRound, pyTrunc, pySliceL, pyIndex, habs3, habs4]
  · simp [onsetPeaks, pydubNormalize, maxAbsSample, localMaxima, lmScan]

/-- C1 witness for the amended claim: an FL pair at 1 kHz with onsets at
samples 1 and 2.  The cut is 0 frames (`int(0.8513) = 0`), both output ears
are sample-for-sample shifted copies, and the near ear's relocated onset is
within one sample (1 ms at 1 kHz) of the configured delay. -/
theorem claim_C1_witness :
    crop_ir_head
      ⟨List.replicate 1 (0 : ℝ) ++ (5000 : ℝ) :: List.replicate 2 0, 1000, 2⟩
      ⟨List.replicate 2 (0 : ℝ) ++ (5000 : ℝ) :: List.replicate 1 0, 1000, 2⟩
      .FL = .ok (⟨[(0 : ℝ), 5000, 0], 1000, 2⟩, ⟨[(0 : ℝ), 0, 5000], 1000, 2⟩) ∧
    |(((1 : ℕ) : ℚ) - ((0 : ℕ) : ℚ)) * 1000 / ((1000 : ℕ) : ℚ) -
        (DELAYS Speaker.FL + (((1 : ℕ) : ℚ) / ((1000 : ℕ) : ℚ) * 1000 -
          min (((1 : ℕ) : ℚ) / ((1000 : ℕ) : ℚ) * 1000)
            (((2 : ℕ) : ℚ) / ((1000 : ℕ) : ℚ) * 1000)))| < 1000 / ((1000 : ℕ) : ℚ) ∧
    (⟨[(0 : ℝ), 5000, 0], 1000, 2⟩ : Seg).samples.get? 1 =
      (⟨List.replicate 1 (0 : ℝ) ++ (5000 : ℝ) :: List.replicate 2 0, 1000, 2⟩ :
        Seg).samples.get? (0 + 1) ∧
    (⟨[(0 : ℝ), 0, 5000], 1000, 2⟩ : Seg).samples.get? 2 =
      (⟨List.replicate 2 (0 : ℝ) ++ (5000 : ℝ) :: List.replicate 1 0, 1000, 2⟩ :
        Seg).samples.get? (0 + 2) := by
  have h1 : onsetPeaks ⟨List.replicate 1 (0 : ℝ) ++ (5000 : ℝ) :: List.replicate 2 0,
      1000, 2⟩ = [1] :=
    onsetPeaks_spike 1 2 5000 (by norm_num) (by norm_num) (by norm_num) 1000
  have h2 : onsetPeaks ⟨List.replicate 2 (0 : ℝ) ++ (5000 : ℝ) :: List.replicate 1 0,
      1000, 2⟩ = [2] :=
    onsetPeaks_spike 2 1 5000 (by norm_num) (by norm_num) (by norm_num) 1000
  have hok : crop_ir_head
      ⟨List.replicate 1 (0 : ℝ) ++ (5000 : ℝ) :: List.replicate 2 0, 1000, 2⟩
      ⟨List.replicate 2 (0 : ℝ) ++ (5000 : ℝ) :: List.replicate 1 0, 1000, 2⟩
      .FL = .ok (⟨[(0 : ℝ), 5000, 0], 1000, 2⟩, ⟨[(0 : ℝ), 0, 5000], 1000, 2⟩) := by
    unfold crop_ir_head
    simp only [h1, h2, List.head?_cons]
    rw [if_pos (by norm_num), if_neg (by decide)]
    have he1 : pySliceFromMs
        (⟨List.replicate 1 (0:ℝ) ++ (5000:ℝ) :: List.replicate 2 0, 1000, 2⟩ : Seg)
        (((1:ℕ):ℚ) / ((⟨List.replicate 1 (0:ℝ) ++ (5000:ℝ) :: List.replicate 2 0, 1000, 2⟩ : Seg).fs : ℚ) * 1000 - DELAYS Speaker.FL) =
        ⟨List.replicate 1 (0:ℝ) ++ (5000:ℝ) :: List.replicate 2 0, 1000, 2⟩ := by
      norm_num [pySliceFromMs, segParse, pylen, pyRound, pyTrunc, pySliceL, pyIndex, DELAYS]
    have habs1 : |(-1 : ℚ)| = 1 := by norm_num
    have he2 : pySliceFromMs
        (⟨List.replicate 2 (0:ℝ) ++ (5000:ℝ) :: List.replicate 1 0, 1000, 2⟩ : Seg)
        (((2:ℕ):ℚ) / ((⟨List.replicate 2 (0:ℝ) ++ (5000:ℝ) :: List.replicate 1 0, 1000, 2⟩ : Seg).fs : ℚ) * 1000 -
          (DELAYS Speaker.FL +
            |((1:ℕ):ℚ) / ((⟨List.replicate 1 (0:ℝ) ++ (5000:ℝ) :: List.replicate 2 0, 1000, 2⟩ : Seg).fs : ℚ) * 1000 -
              ((2:ℕ):ℚ) / ((⟨List.replicate 2 (0:ℝ) ++ (5000:ℝ) :: List.replicate 1 0, 1000, 2⟩ : Seg).fs : ℚ) * 1000|)) =
        ⟨List.replicate 2 (0:ℝ) ++ (5000:ℝ) :: List.replicate 1 0, 1000, 2⟩ := by
      norm_num [pySliceFromMs, segParse, pylen, pyRound, pyTrunc, pySliceL, pyIndex, DELAYS, habs1]
    rw [he1, he2]
    apply headFinish_eval
    · norm_num [pySliceToMs, segParse, pylen, pyRound, pyTrunc, pySliceL, pyIndex]
      rfl
    · norm_num [pySliceToMs, segParse, pylen, pyRound, pyTrunc, pySliceL, pyIndex]
      rfl
  have h := claim_C1
    ⟨List.replicate 1 (0 : ℝ) ++ (5000 : ℝ) :: List.replicate 2 0, 1000, 2⟩
    ⟨List.replicate 2 (0 : ℝ) ++ (5000 : ℝ) :: List.replicate 1 0, 1000, 2⟩
    .FL 1 2 ⟨[(0 : ℝ), 5000, 0], 1000, 2⟩ ⟨[(0 : ℝ), 0, 5000], 1000, 2⟩ 1000
    (8513 / 10000) 0 rfl rfl (by norm_num)
    (by rw [h1]; rfl) (by rw [h2]; rfl) hok
    (by
      rw [min_eq_left (by norm_num)]
      norm_num [DELAYS])
    (by norm_num [pyTrunc])
    (by norm_num)
    (by
      rw [pylen_of_fs1000 _ rfl]
      norm_num)
    (by
      rw [pylen_of_fs1000 _ rfl]
      norm_num)
  exact ⟨hok, h.1, h.2.2.1 1 (by norm_num), h.2.2.2 2 (by norm_num)⟩

/-- C3: requesting deconvolution without pre-processing always raises
UnboundLocalError, regardless of the recording and test files supplied: the
deconvolution branch reads the local variable `preprocessed` that only the
pre-processing branch assigns.  The stage is NOT independently invocable;
the claim fails, and this is a defect in the code (the spec's pipeline
description), not a misstatement of intent. -/
theorem claim_C3 (rec : Multi) (t : Seg) (hfs : rec.fs = t.fs) :
    main { deconvolve := true, recording := some rec, test := some t } =
      .error .nameErr := by
  rfl

/-- C3 witness: a concrete one-track recording and test stimulus with equal
sample rates still hit the UnboundLocalError. -/
theorem claim_C3_witness :
    (⟨[[(0 : ℝ)]], 1000, 2⟩ : Multi).fs = (⟨[(0 : ℝ)], 1000, 2⟩ : Seg).fs ∧
    main { deconvolve := true, recording := some (Multi.mk [[(0 : ℝ)]] 1000 2), test := some (Seg.mk [(0 : ℝ)] 1000 2) } = .error .nameErr :=
  ⟨rfl, claim_C3 (Multi.mk [[(0 : ℝ)]] 1000 2) (Seg.mk [(0 : ℝ)] 1000 2) rfl⟩

theorem get?_replicate_of_lt {α : Type} (x : α) (n j : ℕ) (h : j < n) :
    (List.replicate n x).get? j = some x := by
  rw [List.get?_eq_get (by simpa using h)]
  simp

theorem processLoop_replicate_quiet (s : Seg)
    (hq : ¬(pydubRMS s > 2 ∧ pydubRMS s > 2)) :
    ∀ (n i : ℕ), processLoop (List.replicate (i + 2 * n) s) i =
      .ok (List.replicate (2 * n) (pySliceToMs s 1)) := by
  intro n
  induction n with
  | zero =>
    intro i
    rw [processLoop_stop _ i (by simp)]
    rfl
  | succ n ih =>
    intro i
    have hlen : i + 2 * (n + 1) = (i + 2) + 2 * n := by ring
    rw [hlen]
    have hg1 : (List.replicate ((i + 2) + 2 * n) s).get? i = some s :=
      get?_replicate_of_lt s _ i (by omega)
    have hg2 : (List.replicate ((i + 2) + 2 * n) s).get? (i + 1) = some s :=
      get?_replicate_of_lt s _ (i + 1) (by omega)
    rw [processLoop_quiet _ i s s hg1 hg2 hq, ih (i + 2)]
    rfl

theorem pySliceToMs_seg0 :
    pySliceToMs ⟨List.replicate 2 (0 : ℝ), 1000, 2⟩ 1 =
      ⟨List.replicate 1 (0 : ℝ), 1000, 2⟩ := by
  norm_num [pySliceToMs, segParse, pylen, pyRound, pyTrunc, pySliceL, pyIndex]

theorem postprocessStage_quiet14 :
    postprocessStage ⟨List.replicate 14 (List.replicate 2 (0 : ℝ)), 1000, 2⟩ =
      .ok (⟨List.replicate 14 (List.replicate 1 (0 : ℝ)), 1000, 2⟩,
           ⟨List.replicate 14 (List.replicate 1 (0 : ℝ)), 1000, 2⟩) := by
  have hrms : pydubRMS ⟨List.replicate 2 (0 : ℝ), 1000, 2⟩ = 0 :=
    pydubRMS_replicate_zero 2 1000 2
  have hq : ¬(pydubRMS (⟨List.replicate 2 (0 : ℝ), 1000, 2⟩ : Seg) > 2 ∧
      pydubRMS (⟨List.replicate 2 (0 : ℝ), 1000, 2⟩ : Seg) > 2) := by
    rw [hrms]
    norm_num
  have hloop : processLoop
      (List.replicate 14 (⟨List.replicate 2 (0 : ℝ), 1000, 2⟩ : Seg)) 0 =
      .ok (List.replicate 14 (⟨List.replicate 1 (0 : ℝ), 1000, 2⟩ : Seg)) := by
    have h := processLoop_replicate_quiet _ hq 7 0
    rw [pySliceToMs_seg0] at h
    norm_num at h
    exact h
  simp only [postprocessStage]
  have hresp : (⟨List.replicate 14 (List.replicate 2 (0 : ℝ)), 1000, 2⟩ : Multi).tracks.map
      (fun t => Seg.mk t (⟨List.replicate 14 (List.replicate 2 (0 : ℝ)), 1000, 2⟩ : Multi).fs
        (⟨List.replicate 14 (List.replicate 2 (0 : ℝ)), 1000, 2⟩ : Multi).width) =
      List.replicate 14 (⟨List.replicate 2 (0 : ℝ), 1000, 2⟩ : Seg) := by
    simp
  rw [hresp, hloop]
  simp only [bind, Except.bind]
  rfl

/-- C10 (amended): with a responses file AND a nonempty speakers list, a
postprocess-only run enters directly at the cropping stage and produces
exactly the post-processing outputs; but when `--speakers` is omitted the
run fails with `TypeError('speakers')` even though the post-processing stage
never uses the speaker list (the frozen claim's "only when a parameter
actually required for the requested stage is missing" fails - see the
counterexample). -/
theorem claim_C10 (r : Multi) (sps : List Speaker) (hsp : sps ≠ []) :
    main { postprocess := true, responses := some r, speakers := some sps } =
      (postprocessStage r).map (fun p =>
        { hrirOut := some p.1, hesuviOut := some p.2 }) ∧
    main { postprocess := true, responses := some r, speakers := none } =
      .error (.typeErr "speakers") := by
  constructor
  · cases sps with
    | nil => exact absurd rfl hsp
    | cons a l =>
      have h1 : main { postprocess := true, responses := some r, speakers := some (a :: l) } = Except.bind (postprocessStage r) (fun p => Except.ok { hrirOut := some p.1, hesuviOut := some p.2 }) := rfl
      rw [h1]
      cases hps : postprocessStage r with
      | ok p => rfl
      | error e => rfl
  · rfl

/-- C10 counterexample: a postprocess-only invocation with a valid
14-channel responses file but no speakers list is rejected with
`TypeError('speakers')`, although the post-processing stage itself runs to
completion on that very file without ever consulting a speaker list: the
configuration error concerns a parameter the requested stage does not
require. -/
theorem claim_C10_counterexample :
    main { postprocess := true, responses := some (Multi.mk (List.replicate 14 (List.replicate 2 (0 : ℝ))) 1000 2) } =
      .error (.typeErr "speakers") ∧
    postprocessStage ⟨List.replicate 14 (List.replicate 2 (0 : ℝ)), 1000, 2⟩ =
      .ok (⟨List.replicate 14 (List.replicate 1 (0 : ℝ)), 1000, 2⟩,
           ⟨List.replicate 14 (List.replicate 1 (0 : ℝ)), 1000, 2⟩) :=
  ⟨rfl, postprocessStage_quiet14⟩

/-- C10 witness for the amended claim: with speakers `[FL]` supplied, the
postprocess-only run is exactly the post-processing stage's output; without
speakers it is the configuration error. -/
theorem claim_C10_witness :
    main { postprocess := true, responses := some (Multi.mk (List.replicate 14 (List.replicate 2 (0 : ℝ))) 1000 2), speakers := some [Speaker.FL] } =
      (postprocessStage ⟨List.replicate 14 (List.replicate 2 (0 : ℝ)), 1000, 2⟩).map
        (fun p => { hrirOut := some p.1, hesuviOut := some p.2 }) ∧
    main { postprocess := true, responses := some (Multi.mk (List.replicate 14 (List.replicate 2 (0 : ℝ))) 1000 2), speakers := none } = .error (.typeErr "speakers") :=
  claim_C10 ⟨List.replicate 14 (List.replicate 2 (0 : ℝ)), 1000, 2⟩ [Speaker.FL] (by simp)

theorem getD_eq_get? {α : Type} (l : List α) (n : ℕ) (d : α) :
    l.getD n d = (l.get? n).getD d := by
  simp [List.getD, List.get?_eq_getElem?]

theorem length_flatMap_const {α β : Type} (F : α → List β) (L : ℕ) :
    ∀ (l : List α), (∀ x ∈ l, (F x).length = L) → (l.flatMap F).length = L * l.length := by
  intro l
  induction l with
  | nil => intro _; simp
  | cons x rest ih =>
    intro h
    simp only [List.flatMap_cons, List.length_append, List.length_cons]
    rw [h x (by simp), ih (fun y hy => h y (by simp [hy]))]
    ring

theorem get?_flatMap_const {α β : Type} (F : α → List β) (L : ℕ) :
    ∀ (l : List α) (p i : ℕ), (∀ x ∈ l, (F x).length = L) → p < l.length → i < L →
      (l.flatMap F).get? (p * L + i) = (l.get? p).bind (fun x => (F x).get? i) := by
  intro l
  induction l with
  | nil =>
    intro p i _ hp _
    simp at hp
  | cons x rest ih =>
    intro p i h hp hi
    have hFx : (F x).length = L := h x (by simp)
    cases p with
    | zero =>
      simp only [List.flatMap_cons, Nat.zero_mul, Nat.zero_add]
      rw [List.get?_append (by rw [hFx]; exact hi)]
      simp
    | succ q =>
      simp only [List.flatMap_cons]
      have hidx : (q + 1) * L + i = L + (q * L + i) := by ring
      rw [hidx, List.get?_append_right (by rw [hFx]; omega)]
      rw [hFx]
      have h2 : L + (q * L + i) - L = q * L + i := by omega
      rw [h2]
      rw [List.get?_cons_succ]
      exact ih q i (fun y hy => h y (by simp [hy])) (by simpa using hp) hi

theorem extract_flatMap_const {α β : Type} (F : α → List β) (L : ℕ) :
    ∀ (l : List α) (p : ℕ) (x : α), (∀ y ∈ l, (F y).length = L) → l.get? p = some x →
      ((l.flatMap F).drop (p * L)).take L = F x := by
  intro l
  induction l with
  | nil =>
    intro p x _ hp
    simp at hp
  | cons y rest ih =>
    intro p x h hp
    have hFy : (F y).length = L := h y (by simp)
    cases p with
    | zero =>
      rw [List.get?_cons_zero] at hp
      have hxy : y = x := by simpa using hp
      subst hxy
      simp only [List.flatMap_cons, Nat.zero_mul, List.drop_zero]
      rw [← hFy]
      exact List.take_left _ _
    | succ q =>
      rw [List.get?_cons_succ] at hp
      simp only [List.flatMap_cons]
      have hdl : (F y ++ rest.flatMap F).drop L = rest.flatMap F := by
        have h0 := List.drop_left (F y) (rest.flatMap F)
        rw [hFy] at h0
        exact h0
      have hdd : (F y ++ rest.flatMap F).drop ((q + 1) * L) =
          (rest.flatMap F).drop (q * L) := by
        calc (F y ++ rest.flatMap F).drop ((q + 1) * L)
            = ((F y ++ rest.flatMap F).drop L).drop (q * L) := by
              rw [List.drop_drop]
              congr 1
              ring
          _ = (rest.flatMap F).drop (q * L) := by rw [hdl]
      rw [hdd]
      exact ih q x (fun z hz => h z (by simp [hz])) hp

theorem pySliceL_take_zero {α : Type} (t : List α) (b : ℤ) (hb : 0 ≤ b) :
    pySliceL t 0 b = t.take b.toNat := by
  unfold pySliceL
  rw [pyIndex_zero, List.drop_zero]
  unfold pyIndex
  rw [if_neg (not_lt.2 hb)]
  by_cases hc : b.toNat ≤ t.length
  · rw [min_eq_left hc]
  · rw [min_eq_right (by omega), List.take_length, List.take_of_length_le (by omega)]

theorem pySliceL_drop_of_full {α : Type} (t : List α) (a b : ℤ) (ha : 0 ≤ a)
    (hb : (t.length : ℤ) ≤ b) :
    pySliceL t a b = t.drop a.toNat := by
  unfold pySliceL
  have hb0 : (0 : ℤ) ≤ b := le_trans (Int.natCast_nonneg _) hb
  unfold pyIndex
  rw [if_neg (not_lt.2 hb0), if_neg (not_lt.2 ha)]
  have hbt : t.length ≤ b.toNat := by omega
  rw [min_eq_right hbt, List.take_length]
  by_cases hc : a.toNat ≤ t.length
  · rw [min_eq_left hc]
  · rw [min_eq_right (by omega)]
    rw [List.drop_length, List.drop_of_length_le (by omega)]

theorem mpylen_aligned (m : Multi) (k L : ℕ) (hfs : m.fs = 1000 * k) (hk : 0 < k)
    (hlen : multiFrames m = L * k) : mpylen m = L := by
  unfold mpylen
  rw [hfs, hlen]
  have hkq : ((k : ℚ)) ≠ 0 := by positivity
  have : (1000 : ℚ) * ((L * k : ℕ) : ℚ) / (((1000 * k : ℕ) : ℚ)) = (L : ℚ) := by
    push_cast
    field_simp
    ring
  rw [this, pyRound_natCast]

theorem mparse_intCast (m : Multi) (k L : ℕ) (e : ℤ) (hfs : m.fs = 1000 * k)
    (hk : 0 < k) (hlen : multiFrames m = L * k) (he0 : 0 ≤ e) (heL : e ≤ L) :
    mparse m (e : ℚ) = e * k := by
  unfold mparse
  have hpl : mpylen m = L := mpylen_aligned m k L hfs hk hlen
  rw [hpl, hfs]
  have hmin : min ((e : ℤ) : ℚ) (((L : ℕ) : ℤ) : ℚ) = ((e : ℤ) : ℚ) := by
    apply min_eq_left
    push_cast
    exact_mod_cast heL
  simp only [hmin]
  have hge : ¬ ((e : ℤ) : ℚ) < 0 := not_lt.2 (by exact_mod_cast he0)
  rw [if_neg hge]
  have : ((e : ℤ) : ℚ) * (((1000 * k : ℕ)) : ℚ) / 1000 = ((e * k : ℤ) : ℚ) := by
    push_cast
    ring
  rw [this, pyTrunc_intCast]

theorem multiToMs_aligned (tr : List (List ℝ)) (w k L e : ℕ) (hk : 0 < k)
    (hlen : multiFrames (Multi.mk tr (1000 * k) w) = L * k) (heL : e ≤ L) :
    multiToMs (Multi.mk tr (1000 * k) w) ((e : ℕ) : ℚ) =
      Multi.mk (tr.map (fun t => t.take (e * k))) (1000 * k) w := by
  unfold multiToMs
  have hc : ((e : ℕ) : ℚ) = (((e : ℕ) : ℤ) : ℚ) := by push_cast; ring
  rw [hc, mparse_intCast _ k L (e : ℤ) rfl hk hlen (Int.natCast_nonneg _) (by exact_mod_cast heL)]
  congr 1
  apply List.map_congr_left
  intro t ht
  rw [pySliceL_take_zero t _ (by positivity)]
  congr 1

theorem multiFromMs_aligned (tr : List (List ℝ)) (w k L e : ℕ) (hk : 0 < k)
    (hlen : multiFrames (Multi.mk tr (1000 * k) w) = L * k)
    (htr : ∀ t ∈ tr, t.length = L * k) (heL : e ≤ L) :
    multiFromMs (Multi.mk tr (1000 * k) w) ((e : ℕ) : ℚ) =
      Multi.mk (tr.map (fun t => t.drop (e * k))) (1000 * k) w := by
  unfold multiFromMs
  have hc : ((e : ℕ) : ℚ) = (((e : ℕ) : ℤ) : ℚ) := by push_cast; ring
  have hpl : mpylen (Multi.mk tr (1000 * k) w) = L :=
    mpylen_aligned _ k L rfl hk hlen
  rw [hc, mparse_intCast _ k L (e : ℤ) rfl hk hlen (Int.natCast_nonneg _) (by exact_mod_cast heL)]
  rw [hpl]
  rw [mparse_intCast _ k L (L : ℤ) rfl hk hlen (Int.natCast_nonneg _) (le_refl _)]
  congr 1
  apply List.map_congr_left
  intro t ht
  rw [pySliceL_drop_of_full t _ _ (by positivity)
    (by rw [htr t ht]; push_cast; exact le_refl _)]
  congr 1

theorem buildColumns_aligned (k c : ℕ) (hk : 0 < k) :
    ∀ (n : ℕ) (tr : List (List ℝ)) (w : ℕ), tr ≠ [] →
      (∀ t ∈ tr, t.length = (n * c) * k) →
      buildColumns ((c : ℕ) : ℚ) (Multi.mk tr (1000 * k) w) n =
        (List.range n).map (fun j =>
          Multi.mk (tr.map (fun t => (t.drop (j * (c * k))).take (c * k))) (1000 * k) w) := by
  intro n
  induction n with
  | zero =>
    intro tr w _ _
    simp [buildColumns]
  | succ n ih =>
    intro tr w hne htr
    have hmf : multiFrames (Multi.mk tr (1000 * k) w) = ((n + 1) * c) * k := by
      obtain ⟨t0, ts, rfl⟩ : ∃ t0 ts, tr = t0 :: ts := by
        cases tr with
        | nil => exact absurd rfl hne
        | cons a l => exact ⟨a, l, rfl⟩
      unfold multiFrames
      exact htr t0 (by simp)
    have hcle : c ≤ (n + 1) * c := by nlinarith
    have hto := multiToMs_aligned tr w k ((n + 1) * c) c hk hmf hcle
    have hfrom := multiFromMs_aligned tr w k ((n + 1) * c) c hk hmf htr hcle
    simp only [buildColumns]
    rw [hto, hfrom]
    rw [ih (tr.map (fun t => t.drop (c * k))) w (by simpa using hne)
      (fun t ht => by
        obtain ⟨t0, ht0, rfl⟩ := List.mem_map.1 ht
        rw [List.length_drop, htr t0 ht0]
        have : ((n + 1) * c) * k = (n * c) * k + c * k := by ring
        omega)]
    rw [List.range_succ_eq_map, List.map_cons, List.map_map]
    congr 1
    · congr 1
      apply List.map_congr_left
      intro t ht
      rw [Nat.zero_mul, List.drop_zero]
    · apply List.map_congr_left
      intro j hj
      simp only [Function.comp_apply]
      congr 1
      rw [List.map_map]
      apply List.map_congr_left
      intro t ht
      simp only [Function.comp_apply]
      rw [List.drop_drop]
      congr 2
      rw [Nat.succ_eq_add_one]
      ring

/-- C8: segmentation round-trip.  For a synthetic recording with `2*d`
tracks, each `G*k` frames of silence followed by `n` stimulus copies of
`sk*k` frames each separated by `G*k` frames of silence (frame rate
`1000*k`, so every boundary is frame-aligned), and a speaker list of length
`d*n`, `split_recording` emits `2*d*n` mono excerpts; excerpt `2*(p*n + j)`
is exactly the stimulus injected into track `2p` at column `j` (followed by
its silence gap) and excerpt `2*(p*n + j) + 1` the one injected into track
`2p + 1`: one excerpt per (speaker, ear) pair, in speaker order, left ear
then right. -/
theorem claim_C8 (k G sk n d : ℕ) (hk : 0 < k) (hd : 0 < d)
    (inj : ℕ → ℕ → List ℝ) (hinj : ∀ t j2, (inj t j2).length = sk * k)
    (test : Seg) (htf : test.fs = 1000 * k) (htl : test.samples.length = sk * k)
    (sl : ℚ) (hsl : sl * 1000 = ((G : ℕ) : ℚ))
    (speakers : List Speaker) (hsp : speakers.length = d * n)
    (p j : ℕ) (hp : p < d) (hj : j < n) :
    (split_recording (Multi.mk ((List.range (2 * d)).map (fun t => List.replicate (G * k) (0 : ℝ) ++ (List.range n).flatMap (fun j2 => inj t j2 ++ List.replicate (G * k) 0))) (1000 * k) 2) test speakers sl).tracks.length = 2 * (d * n) ∧
    (split_recording (Multi.mk ((List.range (2 * d)).map (fun t => List.replicate (G * k) (0 : ℝ) ++ (List.range n).flatMap (fun j2 => inj t j2 ++ List.replicate (G * k) 0))) (1000 * k) 2) test speakers sl).tracks.get? (2 * (p * n + j)) = some (inj (2 * p) j ++ List.replicate (G * k) 0) ∧
    (split_recording (Multi.mk ((List.range (2 * d)).map (fun t => List.replicate (G * k) (0 : ℝ) ++ (List.range n).flatMap (fun j2 => inj t j2 ++ List.replicate (G * k) 0))) (1000 * k) 2) test speakers sl).tracks.get? (2 * (p * n + j) + 1) = some (inj (2 * p + 1) j ++ List.replicate (G * k) 0) := by
  have hn : 0 < n := by omega
  have hplt : pylen test = (sk : ℤ) := pylen_aligned test k sk htf hk htl
  have hblock : ∀ t, ∀ j2 ∈ List.range n,
      (inj t j2 ++ List.replicate (G * k) (0 : ℝ)).length = (sk + G) * k := by
    intro t j2 _
    rw [List.length_append, hinj, List.length_replicate]
    ring
  have htrackLen : ∀ t, (List.replicate (G * k) (0 : ℝ) ++
      (List.range n).flatMap (fun j2 => inj t j2 ++ List.replicate (G * k) 0)).length =
      (G + n * (sk + G)) * k := by
    intro t
    rw [List.length_append, List.length_replicate,
      length_flatMap_const _ ((sk + G) * k) _ (hblock t), List.length_range]
    ring
  simp only [split_recording]
  have hchan : ((List.range (2 * d)).map (fun t => List.replicate (G * k) (0 : ℝ) ++
      (List.range n).flatMap (fun j2 => inj t j2 ++ List.replicate (G * k) 0))).length = 2 * d := by
    simp
  rw [hchan, hsp, hsl, hplt]
  have h2d : 2 * d / 2 = d := by omega
  rw [h2d, Nat.mul_div_cancel_left n hd]
  have hmsum : ((G : ℕ) : ℚ) + (((sk : ℕ) : ℤ) : ℚ) = (((sk + G : ℕ)) : ℚ) := by
    push_cast
    ring
  rw [hmsum]
  have hmfrec : multiFrames (Multi.mk ((List.range (2 * d)).map (fun t =>
      List.replicate (G * k) (0 : ℝ) ++
      (List.range n).flatMap (fun j2 => inj t j2 ++ List.replicate (G * k) 0))) (1000 * k) 2) =
      (G + n * (sk + G)) * k := by
    obtain ⟨a, l, hal⟩ : ∃ a l, List.range (2 * d) = a :: l := by
      cases hr : List.range (2 * d) with
      | nil =>
        have : (List.range (2 * d)).length = 0 := by rw [hr]; rfl
        rw [List.length_range] at this
        omega
      | cons a l => exact ⟨a, l, rfl⟩
    unfold multiFrames
    rw [hal]
    exact htrackLen a
  have hrem := multiFromMs_aligned ((List.range (2 * d)).map (fun t =>
      List.replicate (G * k) (0 : ℝ) ++
      (List.range n).flatMap (fun j2 => inj t j2 ++ List.replicate (G * k) 0))) 2 k
      (G + n * (sk + G)) G hk hmfrec
      (fun t ht => by
        obtain ⟨t0, -, rfl⟩ := List.mem_map.1 ht
        exact htrackLen t0)
      (Nat.le_add_right _ _)
  rw [hrem]
  have hcols := buildColumns_aligned k (sk + G) hk n
    (((List.range (2 * d)).map (fun t => List.replicate (G * k) (0 : ℝ) ++
      (List.range n).flatMap (fun j2 => inj t j2 ++ List.replicate (G * k) 0))).map
      (fun t => t.drop (G * k))) 2
    (by simp; omega)
    (fun t ht => by
      obtain ⟨t0, ht0, rfl⟩ := List.mem_map.1 ht
      obtain ⟨t1, -, rfl⟩ := List.mem_map.1 ht0
      rw [List.length_drop, htrackLen t1]
      have : (G + n * (sk + G)) * k = (n * (sk + G)) * k + G * k := by ring
      omega)
  rw [hcols]
  have hdropinit : ∀ t1, (List.replicate (G * k) (0 : ℝ) ++
      (List.range n).flatMap (fun j2 => inj t1 j2 ++ List.replicate (G * k) 0)).drop (G * k) =
      (List.range n).flatMap (fun j2 => inj t1 j2 ++ List.replicate (G * k) 0) := by
    intro t1
    have h := List.drop_left (List.replicate (G * k) (0 : ℝ))
      ((List.range n).flatMap (fun j2 => inj t1 j2 ++ List.replicate (G * k) 0))
    rw [List.length_replicate] at h
    exact h
  -- The columns list, with the double map over tracks fused.
  set cols := (List.range n).map (fun j2 =>
    Multi.mk ((((List.range (2 * d)).map (fun t => List.replicate (G * k) (0 : ℝ) ++
      (List.range n).flatMap (fun j3 => inj t j3 ++ List.replicate (G * k) 0))).map
      (fun t => t.drop (G * k))).map
      (fun t => (t.drop (j2 * ((sk + G) * k))).take ((sk + G) * k))) (1000 * k) 2) with hcolsdef
  have hcolget : ∀ j2, j2 < n → ∀ q, q < 2 * d →
      ∀ col, cols.get? j2 = some col →
      col.tracks.getD q [] = (((List.range n).flatMap (fun j3 => inj q j3 ++
        List.replicate (G * k) (0 : ℝ))).drop (j2 * ((sk + G) * k))).take ((sk + G) * k) := by
    intro j2 hj2 q hq col hcol
    rw [hcolsdef] at hcol
    rw [List.get?_map] at hcol
    rw [List.get?_range hj2] at hcol
    have hcol2 := Option.some.inj hcol
    rw [← hcol2]
    rw [getD_eq_get?, List.get?_map, List.get?_map, List.get?_map, List.get?_range hq]
    simp only [Option.map_some', Option.getD_some]
    rw [hdropinit q]
  -- collectTracks over these columns.
  unfold collectTracks
  have hcolslen : cols.length = n := by
    rw [hcolsdef]
    simp
  have hFlen : ∀ q ∈ List.range ((2 * d + 1) / 2),
      (cols.flatMap (fun col => [col.tracks.getD (2 * q) [], col.tracks.getD (2 * q + 1) []])).length = 2 * n := by
    intro q _
    rw [length_flatMap_const
      (fun col => [col.tracks.getD (2 * q) [], col.tracks.getD (2 * q + 1) []]) 2 cols
      (fun _ _ => rfl), hcolslen]
  have hhalf : (2 * d + 1) / 2 = d := by omega
  refine ⟨?_, ?_, ?_⟩
  · rw [length_flatMap_const _ (2 * n) _ hFlen, List.length_range, hhalf]
    ring
  · have hidx : 2 * (p * n + j) = p * (2 * n) + 2 * j := by ring
    rw [hidx]
    rw [get?_flatMap_const _ (2 * n) _ p (2 * j) hFlen
      (by rw [List.length_range, hhalf]; exact hp) (by omega)]
    rw [hhalf, List.get?_range hp]
    simp only [Option.some_bind]
    have hidx2 : 2 * j = j * 2 + 0 := by ring
    rw [hidx2]
    rw [get?_flatMap_const
      (fun col => [col.tracks.getD (2 * p) [], col.tracks.getD (2 * p + 1) []]) 2 cols j 0
      (fun _ _ => rfl) (by rw [hcolslen]; exact hj) (by omega)]
    cases hcj : cols.get? j with
    | none =>
      have hlen2 := List.get?_eq_none.1 hcj
      rw [hcolslen] at hlen2
      omega
    | some col =>
      simp only [Option.some_bind]
      rw [List.get?_cons_zero]
      rw [hcolget j hj (2 * p) (by omega) col hcj]
      rw [extract_flatMap_const _ ((sk + G) * k) _ j j (hblock (2 * p)) (List.get?_range hj)]
  · have hidx : 2 * (p * n + j) + 1 = p * (2 * n) + (2 * j + 1) := by ring
    rw [hidx]
    rw [get?_flatMap_const _ (2 * n) _ p (2 * j + 1) hFlen
      (by rw [List.length_range, hhalf]; exact hp) (by omega)]
    rw [hhalf, List.get?_range hp]
    simp only [Option.some_bind]
    have hidx2 : 2 * j + 1 = j * 2 + 1 := by ring
    rw [hidx2]
    rw [get?_flatMap_const
      (fun col => [col.tracks.getD (2 * p) [], col.tracks.getD (2 * p + 1) []]) 2 cols j 1
      (fun _ _ => rfl) (by rw [hcolslen]; exact hj) (by omega)]
    cases hcj : cols.get? j with
    | none =>
      have hlen2 := List.get?_eq_none.1 hcj
      rw [hcolslen] at hlen2
      omega
    | some col =>
      simp only [Option.some_bind]
      rw [List.get?_cons_succ, List.get?_cons_zero]
      rw [hcolget j hj (2 * p + 1) (by omega) col hcj]
      rw [extract_flatMap_const _ ((sk + G) * k) _ j j (hblock (2 * p + 1)) (List.get?_range hj)]

/-- C8 witness: one stereo recording (`d = 1`) at 1 kHz with two speakers,
1 ms gaps and 2 ms stimuli; the four excerpts come out in (speaker, ear)
order and excerpts 2 and 3 are the column-1 stimuli of tracks 0 and 1. -/
theorem claim_C8_witness :
    (split_recording (Multi.mk ((List.range 2).map (fun t => List.replicate 1 (0 : ℝ) ++ (List.range 2).flatMap (fun j2 => [(t : ℝ), (j2 : ℝ)] ++ List.replicate 1 0))) 1000 2) (Seg.mk (List.replicate 2 (0 : ℝ)) 1000 2) [Speaker.FL, Speaker.FR] (1 / 1000)).tracks.length = 4 ∧
    (split_recording (Multi.mk ((List.range 2).map (fun t => List.replicate 1 (0 : ℝ) ++ (List.range 2).flatMap (fun j2 => [(t : ℝ), (j2 : ℝ)] ++ List.replicate 1 0))) 1000 2) (Seg.mk (List.replicate 2 (0 : ℝ)) 1000 2) [Speaker.FL, Speaker.FR] (1 / 1000)).tracks.get? 2 = some ([((0 : ℕ) : ℝ), ((1 : ℕ) : ℝ)] ++ List.replicate 1 0) ∧
    (split_recording (Multi.mk ((List.range 2).map (fun t => List.replicate 1 (0 : ℝ) ++ (List.range 2).flatMap (fun j2 => [(t : ℝ), (j2 : ℝ)] ++ List.replicate 1 0))) 1000 2) (Seg.mk (List.replicate 2 (0 : ℝ)) 1000 2) [Speaker.FL, Speaker.FR] (1 / 1000)).tracks.get? 3 = some ([((1 : ℕ) : ℝ), ((1 : ℕ) : ℝ)] ++ List.replicate 1 0) := by
  have h := claim_C8 1 1 2 2 1 one_pos one_pos
    (fun t j2 => [(t : ℝ), (j2 : ℝ)]) (fun t j2 => rfl)
    (Seg.mk (List.replicate 2 (0 : ℝ)) 1000 2) rfl (by simp)
    (1 / 1000) (by norm_num) [Speaker.FL, Speaker.FR] rfl 0 1 one_pos one_lt_two
  exact ⟨h.1, h.2.1, h.2.2⟩

end Impulcifer
